import Mathlib

/- A shallow embedding of the terminal space shooter (src/main.cpp).
   The game board vector<vector<char>> space (30 rows x 160 columns) is
   embedded as a list of rows of characters: ' ' empty, '#' enemy,
   'A' shooter, '.' bullet.  The border ring (row 0, row 29, column 0,
   column 159) is a rendering overlay applied by print_board and is
   ordinarily stored as ' '. -/

def Board : Type := List (List Char)

/-- The cell read space[i][j]. -/
def cell (b : Board) (i j : Nat) : Char := (b.getD i []).getD j ' '

/-- The single-cell write space[i][j] = c. -/
def setCell (b : Board) (i j : Nat) (c : Char) : Board :=
  b.set i ((b.getD i []).set j c)

/-- The board has 30 rows of 160 columns each. -/
def WF (b : Board) : Prop := b.length = 30 ∧ ∀ i, i < 30 → (b.getD i []).length = 160

/-- One body of the nested loop of update_board (main.cpp lines 63-66):
if there is an enemy at (i, j) and the cell below it is empty, move the
enemy down one row (clear source, set destination). -/
def descentStep (b : Board) (i j : Nat) : Board :=
  if cell b i j = '#' ∧ cell b (i + 1) j = ' ' then setCell (setCell b i j ' ') (i + 1) j '#'
  else b

/-- Column indices visited by the inner loop of update_board:
j = 1 .. 158 (the loop bound is j < space[0].size() - 1 = 159). -/
def colIdx : List Nat := List.range' 1 158

/-- Row indices of the outer loop of update_board: i = 28 down to 1
(the loop starts at space.size() - 2 = 28). -/
def rowIdxRev : List Nat := (List.range' 1 28).reverse

/-- Result of update_board: either the exit(0) "You lost" path was taken
(carrying the board as mutated so far), or the loop finished with the
updated board. -/
inductive UpdateResult where
  | lost (b : Board)
  | ok (b : Board)

def resultBoard : UpdateResult → Board
  | .lost b => b
  | .ok b => b

def isLost : UpdateResult → Bool
  | .lost _ => true
  | .ok _ => false

/-- Inner loop of update_board at row i: for each column j, the descent
step followed by the loss check space[29][j] == '#' (lines 61-76). -/
def update_inner (b : Board) (i : Nat) : List Nat → UpdateResult
  | [] => .ok b
  | j :: js =>
    let b2 := descentStep b i j
    if cell b2 29 j = '#' then .lost b2 else update_inner b2 i js

/-- Outer loop of update_board, i from 28 down to 1 (line 60). -/
def update_outer (b : Board) : List Nat → UpdateResult
  | [] => .ok b
  | i :: ks =>
    match update_inner b i colIdx with
    | .lost b2 => .lost b2
    | .ok b2 => update_outer b2 ks

/-- update_board (main.cpp lines 58-78): move all enemies down one cell
if possible, checking the loss condition after each cell. -/
def update_board (b : Board) : UpdateResult := update_outer b rowIdxRev

/-- The mutable state of main: the board, shooter_position, and the
bullets vector (each bullet is a (row, column) pair). -/
structure GameState where
  space : Board
  shooter : Nat
  bullets : List (Nat × Nat)

/-- Per-iteration environment of the loop: the sampled key (the null
character when no key is pending), the three elapsed-timer gates of
lines 121, 150 and 157, and the random column from generate_random
(which always lies in [1, 158]). -/
structure Input where
  key : Char
  fire : Bool
  deploy : Bool
  deployCol : Nat
  descend : Bool

/-- Observable effects performed on leaving the loop: whether the raw
terminal mode and the non-blocking input mode were restored, the text
written, and the process exit code. -/
structure ExitInfo where
  rawModeRestored : Bool
  nonBlockingRestored : Bool
  output : List String
  exitCode : Nat

/-- The quit path (main.cpp lines 139-143): restore both modes, print
"Quit.", return 0. -/
def quitInfo : ExitInfo := ⟨true, true, ["Quit.\n"], 0⟩

/-- The loss path (main.cpp lines 69-75): restore both modes, clear the
screen, print "You lost", exit(0). -/
def lostInfo : ExitInfo := ⟨true, true, ["\x1b[2J\x1b[1;1H", "You lost\n"], 0⟩

/-- Result of one iteration of the while loop. -/
inductive TickResult where
  | running (s : GameState)
  | quit (s : GameState) (e : ExitInfo)
  | lost (s : GameState) (e : ExitInfo)

def spaceOf : TickResult → Board
  | .running s => s.space
  | .quit s _ => s.space
  | .lost s _ => s.space

def shooterOf : TickResult → Nat
  | .running s => s.shooter
  | .quit s _ => s.shooter
  | .lost s _ => s.shooter

def bulletsOf : TickResult → List (Nat × Nat)
  | .running s => s.bullets
  | .quit s _ => s.bullets
  | .lost s _ => s.bullets

def isRunning : TickResult → Bool
  | .running _ => true
  | _ => false

def isLostTick : TickResult → Bool
  | .lost _ _ => true
  | _ => false

def stateOf : TickResult → GameState
  | .running s => s
  | .quit s _ => s
  | .lost s _ => s

/-- Lines 121-124: on the firing gate, push_back a bullet at
(27, shooter_position).  This happens before the move switch. -/
def bulletsAfterFire (s : GameState) (inp : Input) : List (Nat × Nat) :=
  if inp.fire then s.bullets ++ [(27, s.shooter)] else s.bullets

/-- The move switch (lines 130-138): 'a' decrements if position > 1,
'd' increments if position < cols - 2 = 158, anything else is a no-op.
The 'q' case is handled separately by tick. -/
def moveShooter (key : Char) (pos : Nat) : Nat :=
  if key = 'a' then (if 1 < pos then pos - 1 else pos)
  else if key = 'd' then (if pos < 158 then pos + 1 else pos)
  else pos

/-- Line 127: space[28][shooter_position] = ' ' (clear old shooter). -/
def shooterCleared (s : GameState) : Board := setCell s.space 28 s.shooter ' '

/-- Line 147: space[28][shooter_position] = 'A' after the move. -/
def boardAfterPlace (s : GameState) (inp : Input) : Board :=
  setCell (shooterCleared s) 28 (moveShooter inp.key s.shooter) 'A'

/-- Lines 150-154: on the deploy gate, space[1][random column] = '#'. -/
def boardAfterDeploy (s : GameState) (inp : Input) : Board :=
  if inp.deploy then setCell (boardAfterPlace s inp) 1 inp.deployCol '#'
  else boardAfterPlace s inp

/-- Lines 157-160: on the descent gate, run update_board. -/
def descentResult (s : GameState) (inp : Input) : UpdateResult :=
  if inp.descend then update_board (boardAfterDeploy s inp)
  else .ok (boardAfterDeploy s inp)

/-- Lines 162-166: erase stale bullet marks (cells still showing '.'). -/
def eraseBullets (b : Board) : List (Nat × Nat) → Board
  | [] => b
  | p :: ps => eraseBullets (if cell b p.1 p.2 = '.' then setCell b p.1 p.2 ' ' else b) ps

/-- Lines 168-183: advance each bullet one row up.  A bullet whose new
row would leave the screen (new_x < 1) is dropped; a bullet whose
destination holds '#' clears that cell and is dropped; otherwise the
bullet survives at (new_x, y). -/
def advanceBullets (b : Board) : List (Nat × Nat) → Board × List (Nat × Nat)
  | [] => (b, [])
  | p :: ps =>
    if 1 ≤ p.1 - 1 then
      if cell b (p.1 - 1) p.2 = '#' then advanceBullets (setCell b (p.1 - 1) p.2 ' ') ps
      else ((advanceBullets b ps).1, (p.1 - 1, p.2) :: (advanceBullets b ps).2)
    else advanceBullets b ps

/-- Lines 186-188: draw the surviving bullets as '.'. -/
def drawBullets (b : Board) : List (Nat × Nat) → Board
  | [] => b
  | p :: ps => drawBullets (setCell b p.1 p.2 '.') ps

/-- Lines 162-189 combined: erase stale marks, advance with collision
resolution, draw the new positions; returns the board and new_bullets. -/
def bulletPhase (b : Board) (bs : List (Nat × Nat)) : Board × List (Nat × Nat) :=
  let ab := advanceBullets (eraseBullets b bs) bs
  (drawBullets ab.1 ab.2, ab.2)

/-- One iteration of the while loop of main (lines 114-194), with the
timer gates and the sampled key supplied as the Input environment. -/
def tick (s : GameState) (inp : Input) : TickResult :=
  if inp.key = 'q' then
    .quit ⟨shooterCleared s, s.shooter, bulletsAfterFire s inp⟩ quitInfo
  else
    match descentResult s inp with
    | .lost bl => .lost ⟨bl, moveShooter inp.key s.shooter, bulletsAfterFire s inp⟩ lostInfo
    | .ok b4 =>
      .running ⟨(bulletPhase b4 (bulletsAfterFire s inp)).1,
                moveShooter inp.key s.shooter,
                (bulletPhase b4 (bulletsAfterFire s inp)).2⟩

/-- The driver loop over a finite trace of per-iteration environments;
a terminal state stops the loop. -/
def runTicks (s : GameState) : List Input → TickResult
  | [] => .running s
  | inp :: rest =>
    match tick s inp with
    | .running s2 => runTicks s2 rest
    | r => r

/-- The all-blank 30 x 160 board of main line 102. -/
def emptyBoard : Board := List.replicate 30 (List.replicate 160 ' ')

/-- The state at the top of main (lines 101-105): blank board, shooter
at column 70, no bullets. -/
def initState : GameState := ⟨emptyBoard, 70, []⟩

/-- The index set of the grid, for counting enemies. -/
def gridIdx : Finset (Nat × Nat) := Finset.range 30 ×ˢ Finset.range 160

/-- Number of cells of the grid holding an enemy. -/
def enemyCount (b : Board) : Nat := ∑ p ∈ gridIdx, (if cell b p.1 p.2 = '#' then 1 else 0)

/-- Membership in the border ring of the 30 x 160 grid. -/
def borderCell (i j : Nat) : Prop := i = 0 ∨ i = 29 ∨ j = 0 ∨ j = 159

/-- Every border-ring cell of the grid stores ' '. -/
def borderClean (b : Board) : Prop :=
  ∀ i j, i ≤ 29 → j ≤ 159 → borderCell i j → cell b i j = ' '

/-- Board with a single enemy in the last playable row, at (28, 80). -/
def bRow28 : Board := setCell emptyBoard 28 80 '#'

/-- Board with a single enemy at (28, 5). -/
def bC2w : Board := setCell emptyBoard 28 5 '#'

/-- Board with an enemy at (5, 80) and a bullet mark at (6, 80). -/
def bC3w : Board := setCell (setCell emptyBoard 5 80 '#') 6 80 '.'

/-- Board with two stacked enemies at (5, 80) and (6, 80). -/
def bStacked : Board := setCell (setCell emptyBoard 5 80 '#') 6 80 '#'

/-- Board holding only the shooter glyph at (28, 70). -/
def board70 : Board := setCell emptyBoard 28 70 'A'

/-- State with the shooter at column 70 on board70 and no bullets. -/
def state70 : GameState := ⟨board70, 70, []⟩

/-- Board with the shooter at (28, 70) and an enemy at (28, 71). -/
def bC9w : Board := setCell (setCell emptyBoard 28 71 '#') 28 70 'A'

/-- State with the shooter at column 70 on bC9w. -/
def stateC9w : GameState := ⟨bC9w, 70, []⟩

/-- Board with an enemy at (10, 40) blocked by a bullet mark at (11, 40). -/
def bC10w : Board := setCell (setCell emptyBoard 10 40 '#') 11 40 '.'


theorem getD_set {α : Type} (l : List α) (i j : Nat) (a d : α) :
    (l.set i a).getD j d = if i = j ∧ i < l.length then a else l.getD j d := by
  rcases Decidable.em (i = j) with h1 | h1
  · subst h1
    rcases Decidable.em (i < l.length) with h2 | h2
    · rw [List.getD_eq_getElem?_getD, List.getElem?_set_self h2, if_pos ⟨rfl, h2⟩]
      rfl
    · rw [if_neg (fun hc => h2 hc.2), List.getD_eq_getElem?_getD, List.getElem?_set,
        if_pos rfl, if_neg h2, List.getD_eq_getElem?_getD,
        List.getElem?_eq_none (Nat.le_of_not_lt h2)]
  · rw [if_neg (fun hc => h1 hc.1), List.getD_eq_getElem?_getD, List.getElem?_set,
      if_neg h1, List.getD_eq_getElem?_getD]

theorem getD_replicate {α : Type} (n m : Nat) (a d : α) :
    (List.replicate n a).getD m d = if m < n then a else d := by
  rw [List.getD_eq_getElem?_getD, List.getElem?_replicate]
  rcases Decidable.em (m < n) with h | h
  · rw [if_pos h, if_pos h]; rfl
  · rw [if_neg h, if_neg h]; rfl

theorem cell_setCell (b : Board) (i j x y : Nat) (c : Char) :
    cell (setCell b i j c) x y =
      if x = i ∧ y = j ∧ i < b.length ∧ j < (b.getD i []).length then c
      else cell b x y := by
  unfold cell setCell
  by_cases h1 : i = x ∧ i < b.length
  · obtain ⟨h1a, h1b⟩ := h1
    subst h1a
    rw [getD_set, if_pos ⟨rfl, h1b⟩, getD_set]
    by_cases h2 : j = y ∧ j < (b.getD i []).length
    · obtain ⟨h2a, h2b⟩ := h2
      subst h2a
      rw [if_pos ⟨rfl, h2b⟩, if_pos ⟨rfl, rfl, h1b, h2b⟩]
    · rw [if_neg h2, if_neg (fun hc => h2 ⟨hc.2.1.symm, hc.2.2.2⟩)]
  · rw [getD_set, if_neg (fun hc => h1 ⟨hc.1, hc.2⟩),
      if_neg (fun hc => h1 ⟨hc.1.symm, hc.2.2.1⟩)]

theorem cell_setCell_ne (b : Board) (i j x y : Nat) (c : Char) (h : ¬(x = i ∧ y = j)) :
    cell (setCell b i j c) x y = cell b x y := by
  rw [cell_setCell, if_neg (fun hc => h ⟨hc.1, hc.2.1⟩)]

theorem cell_setCell_self (b : Board) (i j : Nat) (c : Char)
    (hi : i < b.length) (hj : j < (b.getD i []).length) :
    cell (setCell b i j c) i j = c := by
  rw [cell_setCell, if_pos ⟨rfl, rfl, hi, hj⟩]

theorem cell_setCell_cases (b : Board) (i j x y : Nat) (c : Char) :
    cell (setCell b i j c) x y = c ∨ cell (setCell b i j c) x y = cell b x y := by
  rw [cell_setCell]
  by_cases h : x = i ∧ y = j ∧ i < b.length ∧ j < (b.getD i []).length
  · rw [if_pos h]; exact Or.inl rfl
  · rw [if_neg h]; exact Or.inr rfl

theorem length_setCell (b : Board) (i j : Nat) (c : Char) :
    (setCell b i j c).length = b.length := by
  unfold setCell; exact List.length_set b i ((b.getD i []).set j c)

theorem rowLength_setCell (b : Board) (i j x : Nat) (c : Char) :
    ((setCell b i j c).getD x []).length = (b.getD x []).length := by
  unfold setCell
  rw [getD_set]
  rcases Decidable.em (i = x ∧ i < b.length) with h | h
  · rw [if_pos h, List.length_set, h.1]
  · rw [if_neg h]

theorem WF_setCell (b : Board) (i j : Nat) (c : Char) (h : WF b) : WF (setCell b i j c) := by
  rcases h with ⟨h1, h2⟩
  exact ⟨by rw [length_setCell, h1], fun x hx => by rw [rowLength_setCell]; exact h2 x hx⟩

theorem WF_emptyBoard : WF emptyBoard := by
  constructor
  · simp [emptyBoard]
  · intro i hi
    unfold emptyBoard
    rw [getD_replicate, if_pos hi, List.length_replicate]

theorem cell_emptyBoard (x y : Nat) : cell emptyBoard x y = ' ' := by
  unfold cell emptyBoard
  rw [getD_replicate]
  rcases Decidable.em (x < 30) with h | h
  · rw [if_pos h, getD_replicate]
    rcases Decidable.em (y < 160) with h2 | h2
    · rw [if_pos h2]
    · rw [if_neg h2]
  · rw [if_neg h]
    rfl

theorem mem_colIdx {j : Nat} : j ∈ colIdx ↔ 1 ≤ j ∧ j ≤ 158 := by
  unfold colIdx
  rw [List.mem_range'_1]
  omega

theorem mem_rowIdxRev {i : Nat} : i ∈ rowIdxRev ↔ 1 ≤ i ∧ i ≤ 28 := by
  unfold rowIdxRev
  rw [List.mem_reverse, List.mem_range'_1]
  omega

theorem rowIdxRev_eq : rowIdxRev = 28 :: (List.range' 1 27).reverse := by
  unfold rowIdxRev
  rw [show (28 : Nat) = 27 + 1 from rfl, List.range'_concat, List.reverse_append]
  rfl

theorem descentStep_eq_of_move (b : Board) (i j : Nat)
    (h : cell b i j = '#' ∧ cell b (i + 1) j = ' ') :
    descentStep b i j = setCell (setCell b i j ' ') (i + 1) j '#' := by
  unfold descentStep
  rw [if_pos h]

theorem descentStep_eq_of_stay (b : Board) (i j : Nat)
    (h : ¬(cell b i j = '#' ∧ cell b (i + 1) j = ' ')) :
    descentStep b i j = b := by
  unfold descentStep
  rw [if_neg h]

theorem cell_descentStep_outside (b : Board) (i j x y : Nat)
    (h1 : ¬(x = i ∧ y = j)) (h2 : ¬(x = i + 1 ∧ y = j)) :
    cell (descentStep b i j) x y = cell b x y := by
  unfold descentStep
  rcases Decidable.em (cell b i j = '#' ∧ cell b (i + 1) j = ' ') with hc | hc
  · rw [if_pos hc, cell_setCell_ne _ _ _ _ _ _ h2, cell_setCell_ne _ _ _ _ _ _ h1]
  · rw [if_neg hc]

theorem cell_descentStep_ne_col (b : Board) (i j x y : Nat) (h : y ≠ j) :
    cell (descentStep b i j) x y = cell b x y :=
  cell_descentStep_outside b i j x y (fun hp => h hp.2) (fun hp => h hp.2)

/-- A cell holding neither '#' nor ' ' is untouched by a descent step. -/
theorem cell_descentStep_keep (b : Board) (i j x y : Nat) (v : Char)
    (hv1 : v ≠ '#') (hv2 : v ≠ ' ') (h : cell b x y = v) :
    cell (descentStep b i j) x y = v := by
  unfold descentStep
  rcases Decidable.em (cell b i j = '#' ∧ cell b (i + 1) j = ' ') with hc | hc
  · rw [if_pos hc]
    have h2 : ¬(x = i + 1 ∧ y = j) := by
      rintro ⟨hx, hy⟩
      subst hx
      subst hy
      exact hv2 (h.symm.trans hc.2)
    have h3 : ¬(x = i ∧ y = j) := by
      rintro ⟨hx, hy⟩
      subst hx
      subst hy
      exact hv1 (h.symm.trans hc.1)
    rw [cell_setCell_ne _ _ _ _ _ _ h2, cell_setCell_ne _ _ _ _ _ _ h3, h]
  · rw [if_neg hc, h]

theorem WF_descentStep (b : Board) (i j : Nat) (h : WF b) : WF (descentStep b i j) := by
  unfold descentStep
  rcases Decidable.em (cell b i j = '#' ∧ cell b (i + 1) j = ' ') with hc | hc
  · rw [if_pos hc]
    exact WF_setCell _ _ _ _ (WF_setCell _ _ _ _ h)
  · rw [if_neg hc]
    exact h

theorem update_inner_preserve (Q : Board → Prop) (i : Nat) (js : List Nat) :
    ∀ b : Board,
      (∀ b2 j, j ∈ js → Q b2 → Q (descentStep b2 i j)) → Q b →
      Q (resultBoard (update_inner b i js)) := by
  induction js with
  | nil =>
    intro b _ hb
    exact hb
  | cons j js ih =>
    intro b hstep hb
    simp only [update_inner]
    have hQ2 : Q (descentStep b i j) := hstep b j (List.mem_cons_self j js) hb
    rcases Decidable.em (cell (descentStep b i j) 29 j = '#') with hc | hc
    · rw [if_pos hc]
      exact hQ2
    · rw [if_neg hc]
      exact ih (descentStep b i j)
        (fun b2 j2 hj2 hq => hstep b2 j2 (List.mem_cons_of_mem j hj2) hq) hQ2

theorem update_outer_preserve (Q : Board → Prop) (ks : List Nat) :
    ∀ b : Board,
      (∀ b2 i j, i ∈ ks → j ∈ colIdx → Q b2 → Q (descentStep b2 i j)) → Q b →
      Q (resultBoard (update_outer b ks)) := by
  induction ks with
  | nil =>
    intro b _ hb
    exact hb
  | cons i ks ih =>
    intro b hstep hb
    simp only [update_outer]
    have hinner : Q (resultBoard (update_inner b i colIdx)) :=
      update_inner_preserve Q i colIdx b
        (fun b2 j hj hq => hstep b2 i j (List.mem_cons_self i ks) hj hq) hb
    rcases hcase : update_inner b i colIdx with b2 | b2
    · rw [hcase] at hinner
      exact hinner
    · rw [hcase] at hinner
      exact ih b2
        (fun b3 i2 j hi2 hj hq => hstep b3 i2 j (List.mem_cons_of_mem i hi2) hj hq) hinner

theorem update_board_preserve (Q : Board → Prop) (b : Board)
    (hstep : ∀ b2 i j, 1 ≤ i → i ≤ 28 → 1 ≤ j → j ≤ 158 → Q b2 → Q (descentStep b2 i j))
    (hb : Q b) : Q (resultBoard (update_board b)) :=
  update_outer_preserve Q rowIdxRev b
    (fun b2 i j hi hj hq =>
      hstep b2 i j (mem_rowIdxRev.mp hi).1 (mem_rowIdxRev.mp hi).2
        (mem_colIdx.mp hj).1 (mem_colIdx.mp hj).2 hq) hb

/-- In a completed (non-losing) pass, the inner loop at row 28 changes
nothing: any move out of row 28 would put an enemy at (29, j) and trip
the loss check at once. -/
theorem update_inner_28_ok (b : Board) (hwf : WF b) (js : List Nat) :
    (∀ j, j ∈ js → j ∈ colIdx) →
    ∀ b2, update_inner b 28 js = .ok b2 → b2 = b := by
  induction js with
  | nil =>
    intro _ b2 h
    cases h
    rfl
  | cons j js ih =>
    intro hjs b2 h
    simp only [update_inner] at h
    rcases Decidable.em (cell b 28 j = '#' ∧ cell b 29 j = ' ') with hc | hc
    · rw [descentStep_eq_of_move b 28 j hc] at h
      have hb1 : 29 < (setCell b 28 j ' ').length := by
        rw [length_setCell, hwf.1]
        omega
      have hb2 : j < ((setCell b 28 j ' ').getD 29 []).length := by
        rw [rowLength_setCell, hwf.2 29 (by omega)]
        have := (mem_colIdx.mp (hjs j (List.mem_cons_self j js))).2
        omega
      rw [cell_setCell_self _ 29 j '#' hb1 hb2, if_pos rfl] at h
      exact UpdateResult.noConfusion h
    · rw [descentStep_eq_of_stay b 28 j hc] at h
      rcases Decidable.em (cell b 29 j = '#') with hc2 | hc2
      · rw [if_pos hc2] at h
        exact UpdateResult.noConfusion h
      · rw [if_neg hc2] at h
        exact ih (fun j2 hj2 => hjs j2 (List.mem_cons_of_mem j hj2)) b2 h

/-- If some column of js has an enemy at (28, j) over an empty (29, j),
or already shows an enemy at (29, j), the inner loop at row 28 takes the
loss exit. -/
theorem update_inner_lost (b : Board) (hwf : WF b) (js : List Nat) :
    (∀ j2, j2 ∈ js → j2 ∈ colIdx) →
    ∀ j, j ∈ js →
    (cell b 29 j = '#' ∨ (cell b 28 j = '#' ∧ cell b 29 j = ' ')) →
    isLost (update_inner b 28 js) = true := by
  induction js with
  | nil =>
    intro _ j hj
    cases hj
  | cons j0 js ih =>
    intro hjs j hj hcond
    simp only [update_inner]
    rcases Decidable.em (cell b 28 j0 = '#' ∧ cell b 29 j0 = ' ') with hc | hc
    · rw [descentStep_eq_of_move b 28 j0 hc]
      have hb1 : 29 < (setCell b 28 j0 ' ').length := by
        rw [length_setCell, hwf.1]
        omega
      have hb2 : j0 < ((setCell b 28 j0 ' ').getD 29 []).length := by
        rw [rowLength_setCell, hwf.2 29 (by omega)]
        have := (mem_colIdx.mp (hjs j0 (List.mem_cons_self j0 js))).2
        omega
      rw [cell_setCell_self _ 29 j0 '#' hb1 hb2, if_pos rfl]
      rfl
    · rw [descentStep_eq_of_stay b 28 j0 hc]
      rcases Decidable.em (cell b 29 j0 = '#') with hc2 | hc2
      · rw [if_pos hc2]
        rfl
      · rw [if_neg hc2]
        rcases List.mem_cons.mp hj with hj0 | hjtail
        · subst hj0
          rcases hcond with h29 | hpair
          · exact absurd h29 hc2
          · exact absurd hpair hc
        · exact ih (fun j2 hj2 => hjs j2 (List.mem_cons_of_mem j0 hj2)) j hjtail hcond

theorem update_outer_cons (b : Board) (i : Nat) (ks : List Nat) :
    update_outer b (i :: ks) =
      match update_inner b i colIdx with
      | .lost b2 => .lost b2
      | .ok b2 => update_outer b2 ks := rfl

/-- In a completed (non-losing) update_board pass, every border-ring
cell is unchanged. -/
theorem update_board_ok_ring (b : Board) (hwf : WF b) (b2 : Board)
    (hok : update_board b = .ok b2) (x y : Nat)
    (hring : x = 0 ∨ x = 29 ∨ y = 0 ∨ y = 159) :
    cell b2 x y = cell b x y := by
  unfold update_board at hok
  rw [rowIdxRev_eq, update_outer_cons] at hok
  rcases hcase : update_inner b 28 colIdx with b3 | b3
  · rw [hcase] at hok
    exact UpdateResult.noConfusion hok
  · rw [hcase] at hok
    have hb3 : b3 = b := update_inner_28_ok b hwf colIdx (fun _ h => h) b3 hcase
    rw [hb3] at hok
    change update_outer b (List.range' 1 27).reverse = UpdateResult.ok b2 at hok
    have hstep : ∀ b4 i j, i ∈ (List.range' 1 27).reverse → j ∈ colIdx →
        cell b4 x y = cell b x y → cell (descentStep b4 i j) x y = cell b x y := by
      intro b4 i j hi hj hq
      rw [List.mem_reverse, List.mem_range'_1] at hi
      have hj2 := mem_colIdx.mp hj
      rw [cell_descentStep_outside b4 i j x y (by rintro ⟨hx, hy⟩; omega)
        (by rintro ⟨hx, hy⟩; omega)]
      exact hq
    have hpres := update_outer_preserve (fun s => cell s x y = cell b x y)
      ((List.range' 1 27).reverse) b hstep rfl
    rw [hok] at hpres
    exact hpres

/-- No descent pass ever touches row 0, column 0 or column 159, whether
it loses or not. -/
theorem update_board_ring_except29 (b : Board) (x y : Nat)
    (hring : x = 0 ∨ y = 0 ∨ y = 159) :
    cell (resultBoard (update_board b)) x y = cell b x y := by
  apply update_board_preserve (fun s => cell s x y = cell b x y)
  · intro b2 i j hi1 hi2 hj1 hj2 hq
    rw [cell_descentStep_outside b2 i j x y (by rintro ⟨hx, hy⟩; omega)
      (by rintro ⟨hx, hy⟩; omega)]
    exact hq
  · rfl

/-- A cell holding a character other than '#' and ' ' keeps its value
through a whole descent pass. -/
theorem update_board_keepVal (b : Board) (x y : Nat) (v : Char) (hv1 : v ≠ '#')
    (hv2 : v ≠ ' ') (h : cell b x y = v) :
    cell (resultBoard (update_board b)) x y = v :=
  update_board_preserve (fun s => cell s x y = v) b
    (fun b2 i j _ _ _ _ hq => cell_descentStep_keep b2 i j x y v hv1 hv2 hq) h

/-- Inner-loop invariant for the provenance of enemies: rows below the
frontier are untouched; every enemy of the current board was, in the
original board, at the same cell or one row higher. -/
theorem update_inner_origin (b0 : Board) (k : Nat) (js : List Nat) :
    ∀ b : Board, js.Nodup →
      (∀ x y, x < k → cell b x y = cell b0 x y) →
      (∀ y, y ∈ js → cell b k y = cell b0 k y) →
      (∀ x y, cell b x y = '#' → cell b0 x y = '#' ∨ (1 ≤ x ∧ cell b0 (x - 1) y = '#')) →
      ∀ b2, update_inner b k js = .ok b2 →
        ((∀ x y, x < k → cell b2 x y = cell b0 x y) ∧
         (∀ x y, cell b2 x y = '#' → cell b0 x y = '#' ∨ (1 ≤ x ∧ cell b0 (x - 1) y = '#'))) := by
  induction js with
  | nil =>
    intro b _ h1 _ h3 b2 hok
    cases hok
    exact ⟨h1, h3⟩
  | cons j js ih =>
    intro b hnd h1 h2 h3 b2 hok
    have hjnot : j ∉ js := (List.nodup_cons.mp hnd).1
    have hndtail : js.Nodup := (List.nodup_cons.mp hnd).2
    simp only [update_inner] at hok
    rcases Decidable.em (cell b k j = '#' ∧ cell b (k + 1) j = ' ') with hc | hc
    · rw [descentStep_eq_of_move b k j hc] at hok
      have hA : ∀ x y, x < k →
          cell (setCell (setCell b k j ' ') (k + 1) j '#') x y = cell b0 x y := by
        intro x y hx
        rw [cell_setCell_ne _ _ _ _ _ _ (by rintro ⟨hxx, _⟩; omega),
          cell_setCell_ne _ _ _ _ _ _ (by rintro ⟨hxx, _⟩; omega)]
        exact h1 x y hx
      have hB : ∀ y2, y2 ∈ js →
          cell (setCell (setCell b k j ' ') (k + 1) j '#') k y2 = cell b0 k y2 := by
        intro y2 hy2
        have hyj : y2 ≠ j := fun he => hjnot (he ▸ hy2)
        rw [cell_setCell_ne _ _ _ _ _ _ (by rintro ⟨hxx, _⟩; omega),
          cell_setCell_ne _ _ _ _ _ _ (by rintro ⟨_, hyy⟩; exact hyj hyy)]
        exact h2 y2 (List.mem_cons_of_mem j hy2)
      have hC : ∀ x y, cell (setCell (setCell b k j ' ') (k + 1) j '#') x y = '#' →
          cell b0 x y = '#' ∨ (1 ≤ x ∧ cell b0 (x - 1) y = '#') := by
        intro x y hxy
        by_cases hp : x = k + 1 ∧ y = j
        · obtain ⟨hpx, hpy⟩ := hp
          subst hpx
          right
          refine ⟨by omega, ?_⟩
          rw [hpy]
          have hk : cell b0 k j = '#' := by
            rw [← h2 j (List.mem_cons_self j js)]
            exact hc.1
          simpa using hk
        · rw [cell_setCell_ne _ _ _ _ _ _ hp] at hxy
          by_cases hq : x = k ∧ y = j
          · obtain ⟨hqx, hqy⟩ := hq
            exact h3 x y (by rw [hqx, hqy]; exact hc.1)
          · rw [cell_setCell_ne _ _ _ _ _ _ hq] at hxy
            exact h3 x y hxy
      rcases Decidable.em (cell (setCell (setCell b k j ' ') (k + 1) j '#') 29 j = '#')
          with hchk | hchk
      · rw [if_pos hchk] at hok
        exact UpdateResult.noConfusion hok
      · rw [if_neg hchk] at hok
        exact ih (setCell (setCell b k j ' ') (k + 1) j '#') hndtail hA hB hC b2 hok
    · rw [descentStep_eq_of_stay b k j hc] at hok
      rcases Decidable.em (cell b 29 j = '#') with hchk | hchk
      · rw [if_pos hchk] at hok
        exact UpdateResult.noConfusion hok
      · rw [if_neg hchk] at hok
        exact ih b hndtail h1 (fun y2 hy2 => h2 y2 (List.mem_cons_of_mem j hy2)) h3 b2 hok

theorem update_outer_origin (b0 : Board) :
    ∀ (n : Nat) (b : Board),
      (∀ x y, x ≤ n → cell b x y = cell b0 x y) →
      (∀ x y, cell b x y = '#' → cell b0 x y = '#' ∨ (1 ≤ x ∧ cell b0 (x - 1) y = '#')) →
      ∀ b2, update_outer b ((List.range' 1 n).reverse) = .ok b2 →
        ∀ x y, cell b2 x y = '#' → cell b0 x y = '#' ∨ (1 ≤ x ∧ cell b0 (x - 1) y = '#') := by
  intro n
  induction n with
  | zero =>
    intro b _ h3 b2 hok
    cases hok
    exact h3
  | succ n ih =>
    intro b h1 h3 b2 hok
    rw [List.range'_concat, List.reverse_append, List.reverse_singleton,
      List.singleton_append, show 1 + 1 * n = n + 1 from by omega,
      update_outer_cons] at hok
    rcases hcase : update_inner b (n + 1) colIdx with b3 | b3
    · rw [hcase] at hok
      exact UpdateResult.noConfusion hok
    · rw [hcase] at hok
      have hinner := update_inner_origin b0 (n + 1) colIdx b
        (List.nodup_range' 1 158) (fun x y hx => h1 x y (by omega))
        (fun y _ => h1 (n + 1) y (by omega)) h3 b3 hcase
      exact ih b3 (fun x y hx => hinner.1 x y (by omega)) hinner.2 b2 hok

/-- Every enemy of a completed descent pass came from the same cell or
the cell one row higher: no enemy moves more than one row per tick. -/
theorem update_board_origin (b b2 : Board) (hok : update_board b = .ok b2) :
    ∀ x y, cell b2 x y = '#' → cell b x y = '#' ∨ (1 ≤ x ∧ cell b (x - 1) y = '#') := by
  have h : update_outer b ((List.range' 1 28).reverse) = .ok b2 := hok
  exact update_outer_origin b 28 b (fun _ _ _ => rfl) (fun x y h2 => Or.inl h2) b2 h

/-- An enemy blocked by a non-enemy, non-empty occupant does not move,
and the blocking occupant survives the descent pass. -/
theorem update_board_blocked (b : Board) (i j : Nat)
    (hene : cell b i j = '#') (hb1 : cell b (i + 1) j ≠ ' ') (hb2 : cell b (i + 1) j ≠ '#') :
    cell (resultBoard (update_board b)) i j = '#' ∧
    cell (resultBoard (update_board b)) (i + 1) j = cell b (i + 1) j := by
  apply update_board_preserve
    (fun s => cell s i j = '#' ∧ cell s (i + 1) j = cell b (i + 1) j)
  · rintro b2 i2 j2 _ _ _ _ ⟨hq1, hq2⟩
    constructor
    · by_cases hp2 : i = i2 ∧ j = j2
      · obtain ⟨hx, hy⟩ := hp2
        rw [← hx, ← hy]
        rw [descentStep_eq_of_stay b2 i j (fun hcc => hb1 (hq2.symm.trans hcc.2))]
        exact hq1
      · rcases Decidable.em (cell b2 i2 j2 = '#' ∧ cell b2 (i2 + 1) j2 = ' ') with hc | hc
        · rw [descentStep_eq_of_move _ _ _ hc]
          by_cases hp1 : i = i2 + 1 ∧ j = j2
          · obtain ⟨hx, hy⟩ := hp1
            rw [hx, hy] at hq1
            exact absurd (hq1.symm.trans hc.2) (by decide)
          · rw [cell_setCell_ne _ _ _ _ _ _ hp1, cell_setCell_ne _ _ _ _ _ _ hp2]
            exact hq1
        · rw [descentStep_eq_of_stay _ _ _ hc]
          exact hq1
    · exact cell_descentStep_keep b2 i2 j2 (i + 1) j (cell b (i + 1) j) hb2 hb1 hq2
  · exact ⟨hene, rfl⟩

theorem update_inner_noEnemy (b : Board) (i : Nat) (js : List Nat)
    (hne : ∀ x y, cell b x y ≠ '#') : update_inner b i js = .ok b := by
  induction js with
  | nil => rfl
  | cons j js ih =>
    simp only [update_inner]
    rw [descentStep_eq_of_stay b i j (fun hc => hne i j hc.1), if_neg (hne 29 j)]
    exact ih

/-- On a board without enemies, update_board is a completed no-op. -/
theorem update_board_noEnemy (b : Board) (hne : ∀ x y, cell b x y ≠ '#') :
    update_board b = .ok b := by
  unfold update_board
  generalize rowIdxRev = ks
  induction ks with
  | nil => rfl
  | cons i ks ih =>
    simp only [update_outer]
    rw [update_inner_noEnemy b i colIdx hne]
    exact ih

theorem enemyCount_descentStep (b : Board) (hwf : WF b) (i j : Nat)
    (hi1 : 1 ≤ i) (hi2 : i ≤ 28) (hj1 : 1 ≤ j) (hj2 : j ≤ 158) :
    enemyCount (descentStep b i j) = enemyCount b := by
  rcases Decidable.em (cell b i j = '#' ∧ cell b (i + 1) j = ' ') with hc | hc
  · rw [descentStep_eq_of_move b i j hc]
    have hmem1 : ((i, j) : Nat × Nat) ∈ gridIdx := by
      unfold gridIdx
      rw [Finset.mem_product, Finset.mem_range, Finset.mem_range]
      exact ⟨by omega, by omega⟩
    have hmem2 : ((i + 1, j) : Nat × Nat) ∈ gridIdx := by
      unfold gridIdx
      rw [Finset.mem_product, Finset.mem_range, Finset.mem_range]
      exact ⟨by omega, by omega⟩
    have hne12 : ((i + 1, j) : Nat × Nat) ≠ (i, j) := by
      intro h
      have h2 := congrArg Prod.fst h
      simp only at h2
      omega
    have hmem2in : ((i + 1, j) : Nat × Nat) ∈ gridIdx.erase (i, j) :=
      Finset.mem_erase.mpr ⟨hne12, hmem2⟩
    have hlen1 : i < b.length := by
      rw [hwf.1]
      omega
    have hrowlen : j < (b.getD i []).length := by
      rw [hwf.2 i (by omega)]
      omega
    have hlen2 : i + 1 < (setCell b i j ' ').length := by
      rw [length_setCell, hwf.1]
      omega
    have hrowlen2 : j < ((setCell b i j ' ').getD (i + 1) []).length := by
      rw [rowLength_setCell, hwf.2 (i + 1) (by omega)]
      omega
    have hv1 : cell (setCell (setCell b i j ' ') (i + 1) j '#') (i + 1) j = '#' :=
      cell_setCell_self _ (i + 1) j '#' hlen2 hrowlen2
    have hv2 : cell (setCell (setCell b i j ' ') (i + 1) j '#') i j = ' ' := by
      rw [cell_setCell_ne _ _ _ _ _ _ (by rintro ⟨hx, _⟩; omega)]
      exact cell_setCell_self b i j ' ' hlen1 hrowlen
    have hoth : ∀ p : Nat × Nat, p ≠ (i, j) → p ≠ (i + 1, j) →
        cell (setCell (setCell b i j ' ') (i + 1) j '#') p.1 p.2 = cell b p.1 p.2 := by
      intro p hp1 hp2
      rw [cell_setCell_ne _ _ _ _ _ _ (fun hc2 => hp2 (Prod.ext_iff.mpr ⟨hc2.1, hc2.2⟩)),
        cell_setCell_ne _ _ _ _ _ _ (fun hc2 => hp1 (Prod.ext_iff.mpr ⟨hc2.1, hc2.2⟩))]
    unfold enemyCount
    rw [← Finset.sum_erase_add gridIdx _ hmem1, ← Finset.sum_erase_add gridIdx _ hmem1,
      ← Finset.sum_erase_add (gridIdx.erase (i, j)) _ hmem2in,
      ← Finset.sum_erase_add (gridIdx.erase (i, j)) _ hmem2in]
    have ecg : ∑ p ∈ (gridIdx.erase (i, j)).erase (i + 1, j),
        (if cell (setCell (setCell b i j ' ') (i + 1) j '#') p.1 p.2 = '#' then (1 : Nat) else 0)
        = ∑ p ∈ (gridIdx.erase (i, j)).erase (i + 1, j),
        (if cell b p.1 p.2 = '#' then (1 : Nat) else 0) :=
      Finset.sum_congr rfl (fun p hp => by
        rw [hoth p (Finset.mem_erase.mp (Finset.mem_erase.mp hp).2).1
          (Finset.mem_erase.mp hp).1])
    rw [ecg]
    simp only [hv1, hv2, hc.1, hc.2]
    simp

  · rw [descentStep_eq_of_stay b i j hc]

/-- A completed descent pass preserves well-formedness and the number
of enemies on the board: enemies neither merge nor vanish. -/
theorem update_board_count (b : Board) (hwf : WF b) :
    WF (resultBoard (update_board b)) ∧
    enemyCount (resultBoard (update_board b)) = enemyCount b := by
  apply update_board_preserve (fun s => WF s ∧ enemyCount s = enemyCount b)
  · rintro b2 i j hi1 hi2 hj1 hj2 ⟨hw, hcnt⟩
    exact ⟨WF_descentStep b2 i j hw,
      by rw [enemyCount_descentStep b2 hw i j hi1 hi2 hj1 hj2, hcnt]⟩
  · exact ⟨hwf, rfl⟩

theorem cell_eraseBullets_ne (bs : List (Nat × Nat)) :
    ∀ (b : Board) (x y : Nat), (∀ p, p ∈ bs → ¬(x = p.1 ∧ y = p.2)) →
      cell (eraseBullets b bs) x y = cell b x y := by
  induction bs with
  | nil =>
    intro b x y _
    rfl
  | cons p ps ih =>
    intro b x y h
    simp only [eraseBullets]
    rcases Decidable.em (cell b p.1 p.2 = '.') with hc | hc
    · rw [if_pos hc, ih _ x y (fun q hq => h q (List.mem_cons_of_mem p hq)),
        cell_setCell_ne _ _ _ _ _ _ (h p (List.mem_cons_self p ps))]
    · rw [if_neg hc]
      exact ih _ x y (fun q hq => h q (List.mem_cons_of_mem p hq))

theorem cell_eraseBullets_vals (bs : List (Nat × Nat)) :
    ∀ (b : Board) (x y : Nat),
      cell (eraseBullets b bs) x y = cell b x y ∨ cell (eraseBullets b bs) x y = ' ' := by
  induction bs with
  | nil =>
    intro b x y
    exact Or.inl rfl
  | cons p ps ih =>
    intro b x y
    simp only [eraseBullets]
    rcases Decidable.em (cell b p.1 p.2 = '.') with hc | hc
    · rw [if_pos hc]
      rcases ih (setCell b p.1 p.2 ' ') x y with h | h
      · rcases cell_setCell_cases b p.1 p.2 x y ' ' with h2 | h2
        · exact Or.inr (h.trans h2)
        · exact Or.inl (h.trans h2)
      · exact Or.inr h
    · rw [if_neg hc]
      exact ih b x y

theorem cell_advanceBullets_ne (bs : List (Nat × Nat)) :
    ∀ (b : Board) (x y : Nat), (∀ p, p ∈ bs → 1 ≤ p.1 - 1 → ¬(x = p.1 - 1 ∧ y = p.2)) →
      cell (advanceBullets b bs).1 x y = cell b x y := by
  induction bs with
  | nil =>
    intro b x y _
    rfl
  | cons p ps ih =>
    intro b x y h
    simp only [advanceBullets]
    rcases Decidable.em (1 ≤ p.1 - 1) with h1 | h1
    · rw [if_pos h1]
      rcases Decidable.em (cell b (p.1 - 1) p.2 = '#') with h2 | h2
      · rw [if_pos h2, ih _ x y (fun q hq hq2 => h q (List.mem_cons_of_mem p hq) hq2),
          cell_setCell_ne _ _ _ _ _ _ (h p (List.mem_cons_self p ps) h1)]
      · rw [if_neg h2]
        exact ih _ x y (fun q hq hq2 => h q (List.mem_cons_of_mem p hq) hq2)
    · rw [if_neg h1]
      exact ih _ x y (fun q hq hq2 => h q (List.mem_cons_of_mem p hq) hq2)

theorem cell_advanceBullets_vals (bs : List (Nat × Nat)) :
    ∀ (b : Board) (x y : Nat),
      cell (advanceBullets b bs).1 x y = cell b x y ∨
      cell (advanceBullets b bs).1 x y = ' ' := by
  induction bs with
  | nil =>
    intro b x y
    exact Or.inl rfl
  | cons p ps ih =>
    intro b x y
    simp only [advanceBullets]
    rcases Decidable.em (1 ≤ p.1 - 1) with h1 | h1
    · rw [if_pos h1]
      rcases Decidable.em (cell b (p.1 - 1) p.2 = '#') with h2 | h2
      · rw [if_pos h2]
        rcases ih (setCell b (p.1 - 1) p.2 ' ') x y with h | h
        · rcases cell_setCell_cases b (p.1 - 1) p.2 x y ' ' with h3 | h3
          · exact Or.inr (h.trans h3)
          · exact Or.inl (h.trans h3)
        · exact Or.inr h
      · rw [if_neg h2]
        exact ih b x y
    · rw [if_neg h1]
      exact ih b x y

theorem advanceBullets_mem (bs : List (Nat × Nat)) :
    ∀ (b : Board) (q : Nat × Nat), q ∈ (advanceBullets b bs).2 →
      ∃ p, p ∈ bs ∧ 1 ≤ p.1 - 1 ∧ q = (p.1 - 1, p.2) := by
  induction bs with
  | nil =>
    intro b q hq
    cases hq
  | cons p ps ih =>
    intro b q hq
    simp only [advanceBullets] at hq
    rcases Decidable.em (1 ≤ p.1 - 1) with h1 | h1
    · rw [if_pos h1] at hq
      rcases Decidable.em (cell b (p.1 - 1) p.2 = '#') with h2 | h2
      · rw [if_pos h2] at hq
        obtain ⟨p2, hp2, hp3, hp4⟩ := ih _ q hq
        exact ⟨p2, List.mem_cons_of_mem p hp2, hp3, hp4⟩
      · rw [if_neg h2] at hq
        rcases List.mem_cons.mp hq with he | ht
        · exact ⟨p, List.mem_cons_self p ps, h1, he⟩
        · obtain ⟨p2, hp2, hp3, hp4⟩ := ih b q ht
          exact ⟨p2, List.mem_cons_of_mem p hp2, hp3, hp4⟩
    · rw [if_neg h1] at hq
      obtain ⟨p2, hp2, hp3, hp4⟩ := ih b q hq
      exact ⟨p2, List.mem_cons_of_mem p hp2, hp3, hp4⟩

theorem cell_drawBullets_ne (bs : List (Nat × Nat)) :
    ∀ (b : Board) (x y : Nat), (∀ p, p ∈ bs → ¬(x = p.1 ∧ y = p.2)) →
      cell (drawBullets b bs) x y = cell b x y := by
  induction bs with
  | nil =>
    intro b x y _
    rfl
  | cons p ps ih =>
    intro b x y h
    simp only [drawBullets]
    rw [ih _ x y (fun q hq => h q (List.mem_cons_of_mem p hq)),
      cell_setCell_ne _ _ _ _ _ _ (h p (List.mem_cons_self p ps))]

theorem cell_drawBullets_vals (bs : List (Nat × Nat)) :
    ∀ (b : Board) (x y : Nat),
      cell (drawBullets b bs) x y = cell b x y ∨ cell (drawBullets b bs) x y = '.' := by
  induction bs with
  | nil =>
    intro b x y
    exact Or.inl rfl
  | cons p ps ih =>
    intro b x y
    simp only [drawBullets]
    rcases ih (setCell b p.1 p.2 '.') x y with h | h
    · rcases cell_setCell_cases b p.1 p.2 x y '.' with h2 | h2
      · exact Or.inr (h.trans h2)
      · exact Or.inl (h.trans h2)
    · exact Or.inr h

theorem tick_eq_quit (s : GameState) (inp : Input) (hq : inp.key = 'q') :
    tick s inp = .quit ⟨shooterCleared s, s.shooter, bulletsAfterFire s inp⟩ quitInfo := by
  unfold tick
  rw [if_pos hq]

theorem tick_eq_running (s : GameState) (inp : Input) (hq : inp.key ≠ 'q') (b4 : Board)
    (hok : descentResult s inp = .ok b4) :
    tick s inp = .running ⟨(bulletPhase b4 (bulletsAfterFire s inp)).1,
      moveShooter inp.key s.shooter, (bulletPhase b4 (bulletsAfterFire s inp)).2⟩ := by
  unfold tick
  rw [if_neg hq, hok]

theorem tick_eq_lost (s : GameState) (inp : Input) (hq : inp.key ≠ 'q') (bl : Board)
    (hlost : descentResult s inp = .lost bl) :
    tick s inp = .lost ⟨bl, moveShooter inp.key s.shooter, bulletsAfterFire s inp⟩ lostInfo := by
  unfold tick
  rw [if_neg hq, hlost]

theorem tick_running_inv (s : GameState) (inp : Input) (s2 : GameState)
    (h : tick s inp = .running s2) :
    inp.key ≠ 'q' ∧ ∃ b4, descentResult s inp = .ok b4 ∧
      s2 = ⟨(bulletPhase b4 (bulletsAfterFire s inp)).1, moveShooter inp.key s.shooter,
        (bulletPhase b4 (bulletsAfterFire s inp)).2⟩ := by
  unfold tick at h
  rcases Decidable.em (inp.key = 'q') with hq | hq
  · rw [if_pos hq] at h
    exact TickResult.noConfusion h
  · rw [if_neg hq] at h
    rcases hd : descentResult s inp with bl | b4
    · rw [hd] at h
      exact TickResult.noConfusion h
    · rw [hd] at h
      refine ⟨hq, b4, rfl, ?_⟩
      injection h with h2
      exact h2.symm

theorem tick_quit_inv (s : GameState) (inp : Input) (s2 : GameState) (e : ExitInfo)
    (h : tick s inp = .quit s2 e) :
    inp.key = 'q' ∧ e = quitInfo ∧
      s2 = ⟨shooterCleared s, s.shooter, bulletsAfterFire s inp⟩ := by
  unfold tick at h
  rcases Decidable.em (inp.key = 'q') with hq | hq
  · rw [if_pos hq] at h
    injection h with h2 h3
    exact ⟨hq, h3.symm, h2.symm⟩
  · rw [if_neg hq] at h
    rcases hd : descentResult s inp with bl | b4
    · rw [hd] at h
      exact TickResult.noConfusion h
    · rw [hd] at h
      exact TickResult.noConfusion h

theorem tick_lost_inv (s : GameState) (inp : Input) (s2 : GameState) (e : ExitInfo)
    (h : tick s inp = .lost s2 e) :
    inp.key ≠ 'q' ∧ e = lostInfo ∧ ∃ bl, descentResult s inp = .lost bl ∧
      s2 = ⟨bl, moveShooter inp.key s.shooter, bulletsAfterFire s inp⟩ := by
  unfold tick at h
  rcases Decidable.em (inp.key = 'q') with hq | hq
  · rw [if_pos hq] at h
    exact TickResult.noConfusion h
  · rw [if_neg hq] at h
    rcases hd : descentResult s inp with bl | b4
    · rw [hd] at h
      injection h with h2 h3
      exact ⟨hq, h3.symm, bl, rfl, h2.symm⟩
    · rw [hd] at h
      exact TickResult.noConfusion h

theorem moveShooter_bounds (key : Char) (pos : Nat) (h1 : 1 ≤ pos) (h2 : pos ≤ 158) :
    1 ≤ moveShooter key pos ∧ moveShooter key pos ≤ 158 := by
  unfold moveShooter
  split_ifs <;> omega

theorem shooterOf_tick_bounds (s : GameState) (inp : Input)
    (h1 : 1 ≤ s.shooter) (h2 : s.shooter ≤ 158) :
    1 ≤ shooterOf (tick s inp) ∧ shooterOf (tick s inp) ≤ 158 := by
  unfold tick
  rcases Decidable.em (inp.key = 'q') with hq | hq
  · rw [if_pos hq]
    exact ⟨h1, h2⟩
  · rw [if_neg hq]
    rcases hd : descentResult s inp with bl | b4
    · exact moveShooter_bounds inp.key s.shooter h1 h2
    · exact moveShooter_bounds inp.key s.shooter h1 h2

theorem runTicks_shooter_bounds (inps : List Input) :
    ∀ s : GameState, 1 ≤ s.shooter → s.shooter ≤ 158 →
      1 ≤ shooterOf (runTicks s inps) ∧ shooterOf (runTicks s inps) ≤ 158 := by
  induction inps with
  | nil =>
    intro s h1 h2
    exact ⟨h1, h2⟩
  | cons inp rest ih =>
    intro s h1 h2
    simp only [runTicks]
    rcases hcase : tick s inp with s2 | ⟨s2, e⟩ | ⟨s2, e⟩
    · have hb := shooterOf_tick_bounds s inp h1 h2
      rw [hcase] at hb
      exact ih s2 hb.1 hb.2
    · have hb := shooterOf_tick_bounds s inp h1 h2
      rw [hcase] at hb
      exact hb
    · have hb := shooterOf_tick_bounds s inp h1 h2
      rw [hcase] at hb
      exact hb

theorem eraseBullets_single_clean (b : Board) (r c : Nat) (h : cell b r c ≠ '.') :
    eraseBullets b [(r, c)] = b := by
  simp only [eraseBullets]
  rw [if_neg h]

theorem eraseBullets_single_mark (b : Board) (r c : Nat) (h : cell b r c = '.') :
    eraseBullets b [(r, c)] = setCell b r c ' ' := by
  simp only [eraseBullets]
  rw [if_pos h]

theorem advanceBullets_single_top (b : Board) (r c : Nat) (h : r ≤ 1) :
    advanceBullets b [(r, c)] = (b, []) := by
  simp only [advanceBullets]
  rw [if_neg (by omega : ¬ (1 ≤ r - 1))]

theorem advanceBullets_single_hit (b : Board) (r c : Nat) (h1 : 2 ≤ r)
    (h2 : cell b (r - 1) c = '#') :
    advanceBullets b [(r, c)] = (setCell b (r - 1) c ' ', []) := by
  simp only [advanceBullets]
  rw [if_pos (by omega : 1 ≤ r - 1), if_pos h2]

theorem advanceBullets_single_miss (b : Board) (r c : Nat) (h1 : 2 ≤ r)
    (h2 : cell b (r - 1) c ≠ '#') :
    advanceBullets b [(r, c)] = (b, [(r - 1, c)]) := by
  simp only [advanceBullets]
  rw [if_pos (by omega : 1 ≤ r - 1), if_neg h2]

theorem drawBullets_single (b : Board) (r c : Nat) :
    drawBullets b [(r, c)] = setCell b r c '.' := rfl

theorem WF_mk (b : Board) (h1 : b.length = 30)
    (h2 : ∀ i, i < 30 → (b.getD i []).length = 160) : WF b := ⟨h1, h2⟩

theorem ok_of_not_lost (r : UpdateResult) (h : isLost r = false) :
    r = .ok (resultBoard r) := by
  cases r with
  | lost b => exact absurd h (by simp [isLost])
  | ok b => rfl

/-- C2: if any cell of the last playable row (row 28) holds an Enemy
(with the bottom border row stored empty there, as it always is in
reachable states), then one descent-gated update_board call takes the
loss exit; the check covers every playable column j in [1, 158]. -/
theorem C2_loss_on_last_playable_row (b : Board) (j : Nat) (hwf : WF b)
    (h1 : 1 ≤ j) (h2 : j ≤ 158)
    (he : cell b 28 j = '#') (hbr : cell b 29 j = ' ') :
    isLost (update_board b) = true := by
  unfold update_board
  rw [rowIdxRev_eq, update_outer_cons]
  have hin : isLost (update_inner b 28 colIdx) = true :=
    update_inner_lost b hwf colIdx (fun _ h => h) j (mem_colIdx.mpr ⟨h1, h2⟩)
      (Or.inr ⟨he, hbr⟩)
  rcases hcase : update_inner b 28 colIdx with b3 | b3
  · rfl
  · rw [hcase] at hin
    simp [isLost] at hin

set_option maxRecDepth 100000 in
/-- C2 witness: a single enemy at (28, 5) makes update_board lose. -/
theorem C2_loss_witness : isLost (update_board bC2w) = true :=
  C2_loss_on_last_playable_row bC2w 5 (WF_mk bC2w (by decide) (by decide))
    (by decide) (by decide) (by decide) (by decide)

/-- C3: one advancement step on a live bullet at (r, c): if r = 1 the
bullet is removed and only its stale mark is erased; if the destination
(r-1, c) holds an Enemy, that cell is cleared and the bullet is removed
(exactly one enemy destroyed); otherwise the bullet moves to (r-1, c),
its old cell left empty. -/
theorem C3_bullet_advancement (b : Board) (r c : Nat)
    (hd : cell b r c = '.') (hr : 1 ≤ r) :
    (r = 1 → bulletPhase b [(r, c)] = (setCell b r c ' ', [])) ∧
    (2 ≤ r → cell b (r - 1) c = '#' →
      bulletPhase b [(r, c)] = (setCell (setCell b r c ' ') (r - 1) c ' ', [])) ∧
    (2 ≤ r → cell b (r - 1) c ≠ '#' →
      bulletPhase b [(r, c)] = (setCell (setCell b r c ' ') (r - 1) c '.', [(r - 1, c)])) := by
  refine ⟨?_, ?_, ?_⟩
  · intro h1
    subst h1
    simp only [bulletPhase]
    rw [eraseBullets_single_mark b 1 c hd, advanceBullets_single_top _ 1 c (by omega)]
    rfl
  · intro h2 hhit
    have hcell : cell (setCell b r c ' ') (r - 1) c = '#' := by
      rw [cell_setCell_ne _ _ _ _ _ _ (by rintro ⟨hx, _⟩; omega)]
      exact hhit
    simp only [bulletPhase]
    rw [eraseBullets_single_mark b r c hd, advanceBullets_single_hit _ r c h2 hcell]
    rfl
  · intro h2 hmiss
    have hcell : cell (setCell b r c ' ') (r - 1) c ≠ '#' := by
      rw [cell_setCell_ne _ _ _ _ _ _ (by rintro ⟨hx, _⟩; omega)]
      exact hmiss
    simp only [bulletPhase]
    rw [eraseBullets_single_mark b r c hd, advanceBullets_single_miss _ r c h2 hcell,
      drawBullets_single]

/-- C3 witness: the spec scenario, enemy at (5, 80) and bullet at
(6, 80): after one advancement step both are gone and (5, 80) is empty. -/
theorem C3_bullet_advancement_witness :
    bulletPhase bC3w [(6, 80)] = (setCell (setCell bC3w 6 80 ' ') (6 - 1) 80 ' ', []) :=
  (C3_bullet_advancement bC3w 6 80 (by decide) (by decide)).2.1 (by decide) (by decide)

/-- C4: the move switch decrements on 'a' only above column 1,
increments on 'd' only below column 158 = cols - 2, ignores other keys,
and the shooter column stays in [1, 158] over every input trace of the
game loop started from the initial state. -/
theorem C4_shooter_clamped :
    (∀ key pos, 1 ≤ pos → pos ≤ 158 →
      (1 ≤ moveShooter key pos ∧ moveShooter key pos ≤ 158) ∧
      (key = 'a' → 1 < pos → moveShooter key pos = pos - 1) ∧
      (key = 'a' → ¬ 1 < pos → moveShooter key pos = pos) ∧
      (key = 'd' → pos < 158 → moveShooter key pos = pos + 1) ∧
      (key = 'd' → ¬ pos < 158 → moveShooter key pos = pos) ∧
      (key ≠ 'a' → key ≠ 'd' → moveShooter key pos = pos)) ∧
    (∀ inps : List Input,
      1 ≤ shooterOf (runTicks initState inps) ∧
      shooterOf (runTicks initState inps) ≤ 158) := by
  constructor
  · intro key pos hp1 hp2
    refine ⟨moveShooter_bounds key pos hp1 hp2, ?_, ?_, ?_, ?_, ?_⟩
    · intro ha hlt
      unfold moveShooter
      rw [if_pos ha, if_pos hlt]
    · intro ha hlt
      unfold moveShooter
      rw [if_pos ha, if_neg hlt]
    · intro hd hlt
      unfold moveShooter
      rw [if_neg (by rw [hd]; decide), if_pos hd, if_pos hlt]
    · intro hd hlt
      unfold moveShooter
      rw [if_neg (by rw [hd]; decide), if_pos hd, if_neg hlt]
    · intro ha hd
      unfold moveShooter
      rw [if_neg ha, if_neg hd]
  · intro inps
    exact runTicks_shooter_bounds inps initState (by decide) (by decide)

/-- C4 witness: at column 5, pressing 'a' keeps the column in bounds. -/
theorem C4_shooter_clamped_witness :
    1 ≤ moveShooter 'a' 5 ∧ moveShooter 'a' 5 ≤ 158 :=
  (C4_shooter_clamped.1 'a' 5 (by decide) (by decide)).1

/-- C10: an enemy whose cell below holds a bullet mark or the shooter
does not move in a descent tick, the blocking occupant survives, and no
cell holding a bullet mark is ever cleared by the descent pass (bullet
versus enemy destruction happens only in the bullet-advancement step). -/
theorem C10_descent_blocked_by_non_enemy (b : Board) (i j : Nat)
    (hene : cell b i j = '#')
    (hbelow : cell b (i + 1) j = '.' ∨ cell b (i + 1) j = 'A') :
    cell (resultBoard (update_board b)) i j = '#' ∧
    cell (resultBoard (update_board b)) (i + 1) j = cell b (i + 1) j ∧
    (∀ x y, cell b x y = '.' → cell (resultBoard (update_board b)) x y = '.') := by
  have hb1 : cell b (i + 1) j ≠ ' ' := by
    rcases hbelow with h | h <;> rw [h] <;> decide
  have hb2 : cell b (i + 1) j ≠ '#' := by
    rcases hbelow with h | h <;> rw [h] <;> decide
  have hmain := update_board_blocked b i j hene hb1 hb2
  exact ⟨hmain.1, hmain.2,
    fun x y h => update_board_keepVal b x y '.' (by decide) (by decide) h⟩

/-- C10 witness: the enemy at (10, 40) stays put above the bullet mark
at (11, 40). -/
theorem C10_descent_blocked_witness :
    cell (resultBoard (update_board bC10w)) 10 40 = '#' :=
  (C10_descent_blocked_by_non_enemy bC10w 10 40 (by decide) (Or.inl (by decide))).1

/-- C6 counterexample: shooter at 70, tick with key 'a' and an elapsed
firing gate: the shooter ends the tick at column 69 but the bullet
enqueued that tick has column 70, the pre-movement shooter column. -/
theorem C6_counterexample :
    shooterOf (tick state70 ⟨'a', true, false, 0, false⟩) = 69 ∧
    bulletsOf (tick state70 ⟨'a', true, false, 0, false⟩) = [(26, 70)] ∧
    (70 : Nat) ≠ 69 := by
  refine ⟨by decide, by decide, by decide⟩

/-- C6 amended: the firing gate runs before the move switch, so the
bullet is enqueued at (27, column before this tick's movement); the
shooter's column is updated by the move switch afterwards. -/
theorem C6_fire_before_move (s : GameState) (inp : Input) (hf : inp.fire = true) :
    bulletsAfterFire s inp = s.bullets ++ [(27, s.shooter)] ∧
    (∀ s2 e, tick s inp = .quit s2 e → s2.bullets = s.bullets ++ [(27, s.shooter)]) ∧
    (∀ s2, tick s inp = .running s2 → s2.shooter = moveShooter inp.key s.shooter) := by
  have h1 : bulletsAfterFire s inp = s.bullets ++ [(27, s.shooter)] := by
    unfold bulletsAfterFire
    rw [if_pos hf]
  refine ⟨h1, ?_, ?_⟩
  · intro s2 e h
    obtain ⟨_, _, hs2⟩ := tick_quit_inv s inp s2 e h
    rw [hs2, ← h1]
  · intro s2 h
    obtain ⟨_, b4, _, hs2⟩ := tick_running_inv s inp s2 h
    rw [hs2]

/-- C6 witness: with no key pressed, the enqueued bullet sits at row 27
in the shooter's (unchanged) column. -/
theorem C6_fire_before_move_witness :
    bulletsAfterFire state70 ⟨'\x00', true, false, 0, false⟩ =
      state70.bullets ++ [(27, state70.shooter)] :=
  (C6_fire_before_move state70 ⟨'\x00', true, false, 0, false⟩ rfl).1

/-- C7 counterexample: from the shooter-at-70 board with no bullets, the
tick in which the first firing interval elapses ends with exactly one
bullet, but at (26, 70), not (27, 70): the bullet enqueued at row 27 is
advanced by the same tick's bullet phase. -/
theorem C7_counterexample :
    bulletsOf (tick state70 ⟨'\x00', true, false, 0, false⟩) = [(26, 70)] ∧
    (bulletsOf (tick state70 ⟨'\x00', true, false, 0, false⟩)).length = 1 ∧
    bulletsOf (tick state70 ⟨'\x00', true, false, 0, false⟩) ≠ [(27, 70)] := by
  refine ⟨by decide, by decide, by decide⟩

/-- C7 amended: for any non-quit key, the first firing tick from the
shooter-at-70 state ends with exactly one bullet, at (26, 70) =
(shooter row - 2, 70): enqueued at (27, 70), then advanced once. -/
theorem C7_first_bullet (key : Char) (hk : key ≠ 'q') :
    bulletsOf (tick state70 ⟨key, true, false, 0, false⟩) = [(26, 70)] ∧
    (bulletsOf (tick state70 ⟨key, true, false, 0, false⟩)).length = 1 := by
  have hbAD : boardAfterDeploy state70 ⟨key, true, false, 0, false⟩ =
      setCell (setCell (setCell emptyBoard 28 70 'A') 28 70 ' ') 28 (moveShooter key 70) 'A' :=
    rfl
  have h27 : cell (boardAfterDeploy state70 ⟨key, true, false, 0, false⟩) 27 70 = ' ' := by
    rw [hbAD, cell_setCell_ne _ _ _ _ _ _ (by rintro ⟨hx, _⟩; omega),
      cell_setCell_ne _ _ _ _ _ _ (by rintro ⟨hx, _⟩; omega),
      cell_setCell_ne _ _ _ _ _ _ (by rintro ⟨hx, _⟩; omega), cell_emptyBoard]
  have h26 : cell (boardAfterDeploy state70 ⟨key, true, false, 0, false⟩) 26 70 = ' ' := by
    rw [hbAD, cell_setCell_ne _ _ _ _ _ _ (by rintro ⟨hx, _⟩; omega),
      cell_setCell_ne _ _ _ _ _ _ (by rintro ⟨hx, _⟩; omega),
      cell_setCell_ne _ _ _ _ _ _ (by rintro ⟨hx, _⟩; omega), cell_emptyBoard]
  have hrun := tick_eq_running state70 ⟨key, true, false, 0, false⟩ hk
    (boardAfterDeploy state70 ⟨key, true, false, 0, false⟩) rfl
  rw [hrun]
  have hbs1 : bulletsAfterFire state70 ⟨key, true, false, 0, false⟩ = [(27, 70)] := rfl
  show ((bulletPhase (boardAfterDeploy state70 ⟨key, true, false, 0, false⟩)
      (bulletsAfterFire state70 ⟨key, true, false, 0, false⟩)).2 = [(26, 70)]) ∧ _
  rw [hbs1]
  simp only [bulletPhase]
  rw [eraseBullets_single_clean _ 27 70 (by rw [h27]; decide),
    advanceBullets_single_miss _ 27 70 (by omega) (by rw [h26]; decide)]
  exact ⟨rfl, rfl⟩

/-- C7 witness: the no-key instance of the first firing tick. -/
theorem C7_first_bullet_witness :
    bulletsOf (tick state70 ⟨'\x00', true, false, 0, false⟩) = [(26, 70)] ∧
    (bulletsOf (tick state70 ⟨'\x00', true, false, 0, false⟩)).length = 1 :=
  C7_first_bullet '\x00' (by decide)

/-- C8: both terminal transitions restore the raw terminal mode and the
non-blocking input mode, print their final message ("Quit." or the
screen-clear followed by "You lost"), exit with status 0, and stop the
loop: no tick after a quit or loss is ever processed. -/
theorem C8_terminal_transitions :
    (quitInfo.rawModeRestored = true ∧ quitInfo.nonBlockingRestored = true ∧
      quitInfo.exitCode = 0 ∧ quitInfo.output = ["Quit.\n"]) ∧
    (lostInfo.rawModeRestored = true ∧ lostInfo.nonBlockingRestored = true ∧
      lostInfo.exitCode = 0 ∧ lostInfo.output = ["\x1b[2J\x1b[1;1H", "You lost\n"]) ∧
    (∀ s inp s2 e, tick s inp = .quit s2 e → e = quitInfo) ∧
    (∀ s inp s2 e, tick s inp = .lost s2 e → e = lostInfo) ∧
    (∀ s inp s2 e rest, tick s inp = .quit s2 e → runTicks s (inp :: rest) = .quit s2 e) ∧
    (∀ s inp s2 e rest, tick s inp = .lost s2 e → runTicks s (inp :: rest) = .lost s2 e) := by
  refine ⟨⟨rfl, rfl, rfl, rfl⟩, ⟨rfl, rfl, rfl, rfl⟩, ?_, ?_, ?_, ?_⟩
  · intro s inp s2 e h
    exact (tick_quit_inv s inp s2 e h).2.1
  · intro s inp s2 e h
    exact (tick_lost_inv s inp s2 e h).2.1
  · intro s inp s2 e rest h
    simp only [runTicks]
    rw [h]
  · intro s inp s2 e rest h
    simp only [runTicks]
    rw [h]

/-- C8 witness: pressing 'q' stops the loop at once with the quit exit. -/
theorem C8_terminal_transitions_witness :
    runTicks state70 [⟨'q', false, false, 0, false⟩] =
      .quit ⟨shooterCleared state70, state70.shooter,
        bulletsAfterFire state70 ⟨'q', false, false, 0, false⟩⟩ quitInfo :=
  C8_terminal_transitions.2.2.2.2.1 state70 ⟨'q', false, false, 0, false⟩ _ _ [] rfl

theorem bulletsAfterFire_rows (s : GameState) (inp : Input)
    (hbul : ∀ p, p ∈ s.bullets → p.1 ≤ 27) :
    ∀ p, p ∈ bulletsAfterFire s inp → p.1 ≤ 27 := by
  intro p hp
  unfold bulletsAfterFire at hp
  rcases Decidable.em (inp.fire = true) with hf | hf
  · rw [if_pos hf] at hp
    rcases List.mem_append.mp hp with h | h
    · exact hbul p h
    · rw [List.mem_singleton.mp h]
  · rw [if_neg hf] at hp
    exact hbul p hp

theorem bulletsAfterFire_bounds (s : GameState) (inp : Input)
    (hs1 : 1 ≤ s.shooter) (hs2 : s.shooter ≤ 158)
    (hbul : ∀ p, p ∈ s.bullets → 1 ≤ p.1 ∧ p.1 ≤ 27 ∧ 1 ≤ p.2 ∧ p.2 ≤ 158) :
    ∀ p, p ∈ bulletsAfterFire s inp → 1 ≤ p.1 ∧ p.1 ≤ 27 ∧ 1 ≤ p.2 ∧ p.2 ≤ 158 := by
  intro p hp
  unfold bulletsAfterFire at hp
  rcases Decidable.em (inp.fire = true) with hf | hf
  · rw [if_pos hf] at hp
    rcases List.mem_append.mp hp with h | h
    · exact hbul p h
    · rw [List.mem_singleton.mp h]
      exact ⟨by omega, by omega, hs1, hs2⟩
  · rw [if_neg hf] at hp
    exact hbul p hp

/-- The bullet phase never writes to a border-ring cell when all bullet
rows are in [1, 27] and all bullet columns in [1, 158]. -/
theorem cell_bulletPhase_ring (b : Board) (bs : List (Nat × Nat)) (x y : Nat)
    (hbs : ∀ p, p ∈ bs → 1 ≤ p.1 ∧ p.1 ≤ 27 ∧ 1 ≤ p.2 ∧ p.2 ≤ 158)
    (hring : x = 0 ∨ x = 29 ∨ y = 0 ∨ y = 159) :
    cell (bulletPhase b bs).1 x y = cell b x y := by
  simp only [bulletPhase]
  have hdraw : ∀ q, q ∈ (advanceBullets (eraseBullets b bs) bs).2 →
      ¬(x = q.1 ∧ y = q.2) := by
    intro q hq hc
    obtain ⟨p, hp, hge, heq⟩ := advanceBullets_mem bs _ q hq
    have hb := hbs p hp
    have hq1 : q.1 = p.1 - 1 := by rw [heq]
    have hq2 : q.2 = p.2 := by rw [heq]
    omega
  have hadv : ∀ p, p ∈ bs → 1 ≤ p.1 - 1 → ¬(x = p.1 - 1 ∧ y = p.2) := by
    intro p hp hge hc
    have hb := hbs p hp
    omega
  have her : ∀ p, p ∈ bs → ¬(x = p.1 ∧ y = p.2) := by
    intro p hp hc
    have hb := hbs p hp
    omega
  rw [cell_drawBullets_ne _ _ _ _ hdraw, cell_advanceBullets_ne _ _ _ _ hadv,
    cell_eraseBullets_ne _ _ _ _ her]

/-- The bullet phase never writes to row 28 when all bullet rows are at
most 27. -/
theorem cell_bulletPhase_row28 (b : Board) (bs : List (Nat × Nat)) (y : Nat)
    (hbs : ∀ p, p ∈ bs → p.1 ≤ 27) :
    cell (bulletPhase b bs).1 28 y = cell b 28 y := by
  simp only [bulletPhase]
  have hdraw : ∀ q, q ∈ (advanceBullets (eraseBullets b bs) bs).2 →
      ¬((28 : Nat) = q.1 ∧ y = q.2) := by
    intro q hq hc
    obtain ⟨p, hp, hge, heq⟩ := advanceBullets_mem bs _ q hq
    have hb := hbs p hp
    have hq1 : q.1 = p.1 - 1 := by rw [heq]
    omega
  have hadv : ∀ p, p ∈ bs → 1 ≤ p.1 - 1 → ¬((28 : Nat) = p.1 - 1 ∧ y = p.2) := by
    intro p hp _ hc
    have hb := hbs p hp
    omega
  have her : ∀ p, p ∈ bs → ¬((28 : Nat) = p.1 ∧ y = p.2) := by
    intro p hp hc
    have hb := hbs p hp
    omega
  rw [cell_drawBullets_ne _ _ _ _ hdraw, cell_advanceBullets_ne _ _ _ _ hadv,
    cell_eraseBullets_ne _ _ _ _ her]

/-- If the board holds no enemy, the bullet phase creates none. -/
theorem bulletPhase_no_enemy (b : Board) (bs : List (Nat × Nat))
    (hno : ∀ x y, cell b x y ≠ '#') :
    ∀ x y, cell (bulletPhase b bs).1 x y ≠ '#' := by
  intro x y
  simp only [bulletPhase]
  intro hxy
  rcases cell_drawBullets_vals (advanceBullets (eraseBullets b bs) bs).2
      (advanceBullets (eraseBullets b bs) bs).1 x y with h | h
  · rw [h] at hxy
    rcases cell_advanceBullets_vals bs (eraseBullets b bs) x y with h2 | h2
    · rw [h2] at hxy
      rcases cell_eraseBullets_vals bs b x y with h3 | h3
      · rw [h3] at hxy
        exact hno x y hxy
      · rw [h3] at hxy
        exact absurd hxy (by decide)
    · rw [h2] at hxy
      exact absurd hxy (by decide)
  · rw [h] at hxy
    exact absurd hxy (by decide)

theorem WF_boardAfterDeploy (s : GameState) (inp : Input) (hwf : WF s.space) :
    WF (boardAfterDeploy s inp) := by
  unfold boardAfterDeploy boardAfterPlace shooterCleared
  rcases Decidable.em (inp.deploy = true) with h | h
  · rw [if_pos h]
    exact WF_setCell _ _ _ _ (WF_setCell _ _ _ _ (WF_setCell _ _ _ _ hwf))
  · rw [if_neg h]
    exact WF_setCell _ _ _ _ (WF_setCell _ _ _ _ hwf)

theorem borderClean_emptyBoard : borderClean emptyBoard :=
  fun x y _ _ _ => cell_emptyBoard x y

theorem borderClean_setCell_interior (b : Board) (i j : Nat) (c : Char)
    (h : borderClean b) (hi1 : 1 ≤ i) (hi2 : i ≤ 28) (hj1 : 1 ≤ j) (hj2 : j ≤ 158) :
    borderClean (setCell b i j c) := by
  intro x y hx hy hr
  have hr2 := hr
  unfold borderCell at hr2
  rw [cell_setCell_ne _ _ _ _ _ _ (by rintro ⟨h1, h2⟩; omega)]
  exact h x y hx hy hr

theorem borderClean_boardAfterDeploy (s : GameState) (inp : Input)
    (hcl : borderClean s.space) (hs1 : 1 ≤ s.shooter) (hs2 : s.shooter ≤ 158)
    (hdc1 : 1 ≤ inp.deployCol) (hdc2 : inp.deployCol ≤ 158) :
    borderClean (boardAfterDeploy s inp) := by
  have h1 : borderClean (shooterCleared s) :=
    borderClean_setCell_interior s.space 28 s.shooter ' ' hcl (by omega) (by omega) hs1 hs2
  have h2 : borderClean (boardAfterPlace s inp) := by
    have hm := moveShooter_bounds inp.key s.shooter hs1 hs2
    exact borderClean_setCell_interior _ 28 _ 'A' h1 (by omega) (by omega) hm.1 hm.2
  unfold boardAfterDeploy
  rcases Decidable.em (inp.deploy = true) with h | h
  · rw [if_pos h]
    exact borderClean_setCell_interior _ 1 _ '#' h2 (by omega) (by omega) hdc1 hdc2
  · rw [if_neg h]
    exact h2

set_option maxRecDepth 100000 in
/-- C1 counterexample: from a state with an enemy at (28, 80), one tick
with the descent gate elapsed ends in the Lost state with an Enemy
stored in border-ring cell (29, 80): the descent step writes gameplay
entities into the bottom border row at the moment of loss. -/
theorem C1_counterexample :
    isLostTick (tick ⟨bRow28, 70, []⟩ ⟨'\x00', false, false, 5, true⟩) = true ∧
    cell (spaceOf (tick ⟨bRow28, 70, []⟩ ⟨'\x00', false, false, 5, true⟩)) 29 80 = '#' := by
  refine ⟨by decide, by decide⟩

/-- C1 amended: under the reachable-state invariants (well-formed board,
clean border ring, shooter and bullets strictly interior, deploy column
in [1, 158]), every tick that keeps running or quits preserves the clean
border ring; in a losing tick the only border-ring cells that can hold a
non-empty occupant lie in the bottom border row 29 (the transient Enemy
written by the descent step right before the Lost exit). -/
theorem C1_border_ring (s : GameState) (inp : Input)
    (hwf : WF s.space) (hcl : borderClean s.space)
    (hs1 : 1 ≤ s.shooter) (hs2 : s.shooter ≤ 158)
    (hbul : ∀ p, p ∈ s.bullets → 1 ≤ p.1 ∧ p.1 ≤ 27 ∧ 1 ≤ p.2 ∧ p.2 ≤ 158)
    (hdc1 : 1 ≤ inp.deployCol) (hdc2 : inp.deployCol ≤ 158) :
    (∀ s2, tick s inp = .running s2 → borderClean s2.space) ∧
    (∀ s2 e, tick s inp = .quit s2 e → borderClean s2.space) ∧
    (∀ s2 e, tick s inp = .lost s2 e →
      ∀ x y, x ≤ 29 → y ≤ 159 → borderCell x y → cell s2.space x y ≠ ' ' → x = 29) := by
  have hclAD : borderClean (boardAfterDeploy s inp) :=
    borderClean_boardAfterDeploy s inp hcl hs1 hs2 hdc1 hdc2
  have hwfAD : WF (boardAfterDeploy s inp) := WF_boardAfterDeploy s inp hwf
  have hbs1 := bulletsAfterFire_bounds s inp hs1 hs2 hbul
  refine ⟨?_, ?_, ?_⟩
  · intro s2 hrun
    obtain ⟨hq, b4, hd, hs2eq⟩ := tick_running_inv s inp s2 hrun
    rw [hs2eq]
    intro x y hx hy hr
    show cell (bulletPhase b4 (bulletsAfterFire s inp)).1 x y = ' '
    have hr2 := hr
    unfold borderCell at hr2
    rw [cell_bulletPhase_ring b4 _ x y hbs1 hr2]
    unfold descentResult at hd
    rcases Decidable.em (inp.descend = true) with hds | hds
    · rw [if_pos hds] at hd
      rw [update_board_ok_ring (boardAfterDeploy s inp) hwfAD b4 hd x y hr2]
      exact hclAD x y hx hy hr
    · rw [if_neg hds] at hd
      injection hd with hd2
      rw [← hd2]
      exact hclAD x y hx hy hr
  · intro s2 e hquit
    obtain ⟨hq, he, hs2eq⟩ := tick_quit_inv s inp s2 e hquit
    rw [hs2eq]
    intro x y hx hy hr
    show cell (shooterCleared s) x y = ' '
    exact borderClean_setCell_interior s.space 28 s.shooter ' ' hcl (by omega) (by omega)
      hs1 hs2 x y hx hy hr
  · intro s2 e hlost
    obtain ⟨hq, he, bl, hd, hs2eq⟩ := tick_lost_inv s inp s2 e hlost
    rw [hs2eq]
    intro x y hx hy hr hne
    by_contra hx29
    have hr2 := hr
    unfold borderCell at hr2
    unfold descentResult at hd
    rcases Decidable.em (inp.descend = true) with hds | hds
    · rw [if_pos hds] at hd
      have hbl : bl = resultBoard (update_board (boardAfterDeploy s inp)) := by
        rw [hd]
        rfl
      have hcells : cell bl x y = cell (boardAfterDeploy s inp) x y := by
        rw [hbl]
        exact update_board_ring_except29 (boardAfterDeploy s inp) x y (by omega)
      exact hne (hcells.trans (hclAD x y hx hy hr))
    · rw [if_neg hds] at hd
      exact UpdateResult.noConfusion hd

set_option maxRecDepth 200000 in
/-- C1 witness: one quiet tick from the shooter-at-70 state keeps the
border ring clean. -/
theorem C1_border_ring_witness :
    borderClean (stateOf (tick state70 ⟨'\x00', false, false, 5, false⟩)).space :=
  (C1_border_ring state70 ⟨'\x00', false, false, 5, false⟩
    (WF_mk board70 (by decide) (by decide))
    (borderClean_setCell_interior emptyBoard 28 70 'A' borderClean_emptyBoard
      (by omega) (by omega) (by omega) (by omega))
    (by decide) (by decide)
    (fun p hp => absurd hp (List.not_mem_nil p))
    (by decide) (by decide)).1
    (stateOf (tick state70 ⟨'\x00', false, false, 5, false⟩)) rfl

/-- C9: at the end of every running tick the shooter's cell holds the
Shooter glyph, never an Enemy; and when the shooter moves right onto the
only enemy's cell, the enemy is silently overwritten by the unconditional
shooter write: the tick keeps running (no loss, no blocked move) and no
enemy remains anywhere on the board. -/
theorem C9_shooter_cell_overwrites (s : GameState) (inp : Input)
    (hwf : WF s.space) (hs1 : 1 ≤ s.shooter) (hs2 : s.shooter ≤ 158)
    (hbul : ∀ p, p ∈ s.bullets → p.1 ≤ 27) :
    (∀ s2, tick s inp = .running s2 → cell s2.space 28 s2.shooter = 'A') ∧
    (inp.key = 'd' → s.shooter < 158 → inp.deploy = false →
      cell s.space 28 (s.shooter + 1) = '#' →
      (∀ x y, cell s.space x y = '#' → x = 28 ∧ y = s.shooter + 1) →
      isRunning (tick s inp) = true ∧ shooterOf (tick s inp) = s.shooter + 1 ∧
      cell (spaceOf (tick s inp)) 28 (s.shooter + 1) = 'A' ∧
      (∀ x y, cell (spaceOf (tick s inp)) x y ≠ '#')) := by
  have hmb := moveShooter_bounds inp.key s.shooter hs1 hs2
  have hplace : cell (boardAfterPlace s inp) 28 (moveShooter inp.key s.shooter) = 'A' := by
    unfold boardAfterPlace
    apply cell_setCell_self
    · unfold shooterCleared
      rw [length_setCell, hwf.1]
      omega
    · unfold shooterCleared
      rw [rowLength_setCell, hwf.2 28 (by omega)]
      omega
  have hAD : cell (boardAfterDeploy s inp) 28 (moveShooter inp.key s.shooter) = 'A' := by
    unfold boardAfterDeploy
    rcases Decidable.em (inp.deploy = true) with hdep | hdep
    · rw [if_pos hdep, cell_setCell_ne _ _ _ _ _ _ (by rintro ⟨h1, _⟩; omega)]
      exact hplace
    · rw [if_neg hdep]
      exact hplace
  constructor
  · intro s2 hrun
    obtain ⟨hq, b4, hd, hs2eq⟩ := tick_running_inv s inp s2 hrun
    rw [hs2eq]
    show cell (bulletPhase b4 (bulletsAfterFire s inp)).1 28 (moveShooter inp.key s.shooter) = 'A'
    rw [cell_bulletPhase_row28 b4 _ _ (bulletsAfterFire_rows s inp hbul)]
    unfold descentResult at hd
    rcases Decidable.em (inp.descend = true) with hds | hds
    · rw [if_pos hds] at hd
      have hb4 : resultBoard (update_board (boardAfterDeploy s inp)) = b4 := by
        rw [hd]
        rfl
      rw [← hb4]
      exact update_board_keepVal _ 28 _ 'A' (by decide) (by decide) hAD
    · rw [if_neg hds] at hd
      injection hd with hd2
      rw [← hd2]
      exact hAD
  · intro hkey hlt hdep hene honly
    have hq : inp.key ≠ 'q' := by
      rw [hkey]
      decide
    have hpos2 : moveShooter inp.key s.shooter = s.shooter + 1 := by
      unfold moveShooter
      rw [hkey, if_neg (by decide : ¬ ('d' = 'a')), if_pos rfl, if_pos hlt]
    have hno : ∀ x y, cell (boardAfterPlace s inp) x y ≠ '#' := by
      intro x y hxy
      unfold boardAfterPlace at hxy
      by_cases hp : x = 28 ∧ y = moveShooter inp.key s.shooter
      · obtain ⟨hp1, hp2⟩ := hp
        rw [hp1, hp2] at hxy
        have hself : cell (setCell (shooterCleared s) 28 (moveShooter inp.key s.shooter) 'A')
            28 (moveShooter inp.key s.shooter) = 'A' := by
          apply cell_setCell_self
          · unfold shooterCleared
            rw [length_setCell, hwf.1]
            omega
          · unfold shooterCleared
            rw [rowLength_setCell, hwf.2 28 (by omega)]
            omega
        rw [hself] at hxy
        exact absurd hxy (by decide)
      · rw [cell_setCell_ne _ _ _ _ _ _ hp] at hxy
        unfold shooterCleared at hxy
        by_cases hp2 : x = 28 ∧ y = s.shooter
        · obtain ⟨hq1, hq2⟩ := hp2
          rw [hq1, hq2] at hxy
          have hself : cell (setCell s.space 28 s.shooter ' ') 28 s.shooter = ' ' := by
            apply cell_setCell_self
            · rw [hwf.1]
              omega
            · rw [hwf.2 28 (by omega)]
              omega
          rw [hself] at hxy
          exact absurd hxy (by decide)
        · rw [cell_setCell_ne _ _ _ _ _ _ hp2] at hxy
          have hco := honly x y hxy
          rw [hpos2] at hp
          exact hp hco
    have hADeq : boardAfterDeploy s inp = boardAfterPlace s inp := by
      unfold boardAfterDeploy
      rw [hdep, if_neg (by decide)]
    have hnoAD : ∀ x y, cell (boardAfterDeploy s inp) x y ≠ '#' := by
      rw [hADeq]
      exact hno
    have hd : descentResult s inp = .ok (boardAfterDeploy s inp) := by
      unfold descentResult
      rcases Decidable.em (inp.descend = true) with hds | hds
      · rw [if_pos hds]
        exact update_board_noEnemy _ hnoAD
      · rw [if_neg hds]
    have hrun := tick_eq_running s inp hq _ hd
    rw [hrun]
    refine ⟨rfl, ?_, ?_, ?_⟩
    · show moveShooter inp.key s.shooter = s.shooter + 1
      exact hpos2
    · show cell (bulletPhase (boardAfterDeploy s inp) (bulletsAfterFire s inp)).1
        28 (s.shooter + 1) = 'A'
      rw [cell_bulletPhase_row28 _ _ _ (bulletsAfterFire_rows s inp hbul), ← hpos2]
      exact hAD
    · intro x y
      show cell (bulletPhase (boardAfterDeploy s inp) (bulletsAfterFire s inp)).1 x y ≠ '#'
      exact bulletPhase_no_enemy _ _ hnoAD x y

set_option maxRecDepth 200000 in
/-- C9 witness: shooter at 70, lone enemy at (28, 71), key 'd': the tick
keeps running and the shooter ends at column 71. -/
theorem C9_shooter_cell_overwrites_witness :
    shooterOf (tick stateC9w ⟨'d', false, false, 0, true⟩) = 70 + 1 :=
  ((C9_shooter_cell_overwrites stateC9w ⟨'d', false, false, 0, true⟩
    (WF_mk bC9w (by decide) (by decide)) (by decide) (by decide)
    (fun p hp => absurd hp (List.not_mem_nil p))).2 rfl (by decide) rfl (by decide)
    (fun x y h => by
      have h2 : cell (setCell (setCell emptyBoard 28 71 '#') 28 70 'A') x y = '#' := h
      rcases cell_setCell_cases (setCell emptyBoard 28 71 '#') 28 70 x y 'A' with h3 | h3
      · rw [h3] at h2
        exact absurd h2 (by decide)
      · rw [h3] at h2
        by_cases hp : x = 28 ∧ y = 71
        · exact ⟨hp.1, hp.2⟩
        · rw [cell_setCell_ne _ _ _ _ _ _ hp, cell_emptyBoard] at h2
          exact absurd h2 (by decide))).2.1


theorem update_inner_nop (b : Board) (i : Nat) (js : List Nat) :
    (∀ j, j ∈ js → ¬(cell b i j = '#' ∧ cell b (i + 1) j = ' ') ∧ cell b 29 j ≠ '#') →
    update_inner b i js = .ok b := by
  induction js with
  | nil =>
    intro _
    rfl
  | cons j js ih =>
    intro h
    simp only [update_inner]
    rw [descentStep_eq_of_stay b i j (h j (List.mem_cons_self j js)).1,
      if_neg (h j (List.mem_cons_self j js)).2]
    exact ih (fun j2 hj2 => h j2 (List.mem_cons_of_mem j hj2))

theorem update_inner_append (b : Board) (i : Nat) (js1 js2 : List Nat) :
    update_inner b i (js1 ++ js2) =
      match update_inner b i js1 with
      | .lost b2 => .lost b2
      | .ok b2 => update_inner b2 i js2 := by
  induction js1 generalizing b with
  | nil => rfl
  | cons j js1 ih =>
    simp only [List.cons_append, update_inner]
    rcases Decidable.em (cell (descentStep b i j) 29 j = '#') with hc | hc
    · rw [if_pos hc, if_pos hc]
    · rw [if_neg hc, if_neg hc]
      exact ih (descentStep b i j)

theorem update_outer_step (b b2 : Board) (k : Nat) (rest : List Nat)
    (h : update_inner b k colIdx = .ok b2) :
    update_outer b (k :: rest) = update_outer b2 rest := by
  rw [update_outer_cons, h]

theorem update_outer_nop (b : Board) (ks rest : List Nat) :
    (∀ i, i ∈ ks → ∀ j, j ∈ colIdx →
      ¬(cell b i j = '#' ∧ cell b (i + 1) j = ' ') ∧ cell b 29 j ≠ '#') →
    update_outer b (ks ++ rest) = update_outer b rest := by
  induction ks with
  | nil =>
    intro _
    rfl
  | cons k ks ih =>
    intro h
    rw [List.cons_append, update_outer_step b b k (ks ++ rest)
      (update_inner_nop b k colIdx (fun j hj => h k (List.mem_cons_self k ks) j hj))]
    exact ih (fun i2 hi2 j hj => h i2 (List.mem_cons_of_mem k hi2) j hj)

theorem cell_bStacked_off (x y : Nat) (hx : ¬(x = 5 ∧ y = 80)) (hy : ¬(x = 6 ∧ y = 80)) :
    cell bStacked x y = ' ' := by
  unfold bStacked
  rw [cell_setCell_ne _ _ _ _ _ _ hy, cell_setCell_ne _ _ _ _ _ _ hx, cell_emptyBoard]

set_option maxRecDepth 100000 in
/-- The stacked-enemies descent pass computed symbolically: the pass
completes and shifts the whole stack down one row. -/
theorem update_board_bStacked :
    update_board bStacked =
      .ok (setCell (setCell (setCell (setCell bStacked 6 80 ' ') 7 80 '#') 5 80 ' ') 6 80 '#') := by
  have h580 : cell bStacked 5 80 = '#' := by decide
  have h680 : cell bStacked 6 80 = '#' := by decide
  have hnop0 : ∀ i, i ≠ 5 → i ≠ 6 → ∀ j, j ∈ colIdx →
      ¬(cell bStacked i j = '#' ∧ cell bStacked (i + 1) j = ' ') ∧
      cell bStacked 29 j ≠ '#' := by
    intro i h5 h6 j hj
    constructor
    · rintro ⟨hc, _⟩
      rw [cell_bStacked_off i j (by rintro ⟨hx2, _⟩; exact h5 hx2)
        (by rintro ⟨hx2, _⟩; exact h6 hx2)] at hc
      exact absurd hc (by decide)
    · rw [cell_bStacked_off 29 j (by rintro ⟨hx2, _⟩; omega) (by rintro ⟨hx2, _⟩; omega)]
      decide
  have hsplit : colIdx = List.range' 1 79 ++ 80 :: List.range' 81 78 := by decide
  -- row 6: the enemy at (6, 80) moves down to (7, 80)
  have hpre6 : update_inner bStacked 6 (List.range' 1 79) = .ok bStacked :=
    update_inner_nop _ 6 _ (fun j hj => by
      have hjb := List.mem_range'_1.mp hj
      constructor
      · rintro ⟨hc, _⟩
        rw [cell_bStacked_off 6 j (by rintro ⟨hx2, _⟩; omega)
          (by rintro ⟨_, hy2⟩; omega)] at hc
        exact absurd hc (by decide)
      · rw [cell_bStacked_off 29 j (by rintro ⟨hx2, _⟩; omega) (by rintro ⟨hx2, _⟩; omega)]
        decide)
  have hmv6 : descentStep bStacked 6 80 = setCell (setCell bStacked 6 80 ' ') 7 80 '#' :=
    descentStep_eq_of_move _ _ _
      ⟨h680, cell_bStacked_off 7 80 (by rintro ⟨hx2, _⟩; omega) (by rintro ⟨hx2, _⟩; omega)⟩
  have hchk6 : cell (setCell (setCell bStacked 6 80 ' ') 7 80 '#') 29 80 ≠ '#' := by
    rw [cell_setCell_ne _ _ _ _ _ _ (by rintro ⟨hx2, _⟩; omega),
      cell_setCell_ne _ _ _ _ _ _ (by rintro ⟨hx2, _⟩; omega),
      cell_bStacked_off 29 80 (by rintro ⟨hx2, _⟩; omega) (by rintro ⟨hx2, _⟩; omega)]
    decide
  have hpost6 : update_inner (setCell (setCell bStacked 6 80 ' ') 7 80 '#') 6
      (List.range' 81 78) = .ok (setCell (setCell bStacked 6 80 ' ') 7 80 '#') :=
    update_inner_nop _ 6 _ (fun j hj => by
      have hjb := List.mem_range'_1.mp hj
      constructor
      · rintro ⟨hc, _⟩
        rw [cell_setCell_ne _ _ _ _ _ _ (by rintro ⟨_, hy2⟩; omega),
          cell_setCell_ne _ _ _ _ _ _ (by rintro ⟨_, hy2⟩; omega),
          cell_bStacked_off 6 j (by rintro ⟨hx2, _⟩; omega)
            (by rintro ⟨_, hy2⟩; omega)] at hc
        exact absurd hc (by decide)
      · rw [cell_setCell_ne _ _ _ _ _ _ (by rintro ⟨hx2, _⟩; omega),
          cell_setCell_ne _ _ _ _ _ _ (by rintro ⟨hx2, _⟩; omega),
          cell_bStacked_off 29 j (by rintro ⟨hx2, _⟩; omega) (by rintro ⟨hx2, _⟩; omega)]
        decide)
  have hrow6 : update_inner bStacked 6 colIdx =
      .ok (setCell (setCell bStacked 6 80 ' ') 7 80 '#') := by
    rw [hsplit, update_inner_append, hpre6]
    show update_inner bStacked 6 (80 :: List.range' 81 78) = _
    simp only [update_inner]
    rw [hmv6, if_neg hchk6]
    exact hpost6
  -- row 5: the enemy at (5, 80) moves into the vacated (6, 80)
  have h580b : cell (setCell (setCell bStacked 6 80 ' ') 7 80 '#') 5 80 = '#' := by
    rw [cell_setCell_ne _ _ _ _ _ _ (by rintro ⟨hx2, _⟩; omega),
      cell_setCell_ne _ _ _ _ _ _ (by rintro ⟨hx2, _⟩; omega)]
    exact h580
  have h680b : cell (setCell (setCell bStacked 6 80 ' ') 7 80 '#') 6 80 = ' ' := by
    rw [cell_setCell_ne _ _ _ _ _ _ (by rintro ⟨hx2, _⟩; omega)]
    exact cell_setCell_self bStacked 6 80 ' ' (by decide) (by decide)
  have hpre5 : update_inner (setCell (setCell bStacked 6 80 ' ') 7 80 '#') 5
      (List.range' 1 79) = .ok (setCell (setCell bStacked 6 80 ' ') 7 80 '#') :=
    update_inner_nop _ 5 _ (fun j hj => by
      have hjb := List.mem_range'_1.mp hj
      constructor
      · rintro ⟨hc, _⟩
        rw [cell_setCell_ne _ _ _ _ _ _ (by rintro ⟨_, hy2⟩; omega),
          cell_setCell_ne _ _ _ _ _ _ (by rintro ⟨_, hy2⟩; omega),
          cell_bStacked_off 5 j (by rintro ⟨_, hy2⟩; omega)
            (by rintro ⟨hx2, _⟩; omega)] at hc
        exact absurd hc (by decide)
      · rw [cell_setCell_ne _ _ _ _ _ _ (by rintro ⟨hx2, _⟩; omega),
          cell_setCell_ne _ _ _ _ _ _ (by rintro ⟨hx2, _⟩; omega),
          cell_bStacked_off 29 j (by rintro ⟨hx2, _⟩; omega) (by rintro ⟨hx2, _⟩; omega)]
        decide)
  have hmv5 : descentStep (setCell (setCell bStacked 6 80 ' ') 7 80 '#') 5 80 =
      setCell (setCell (setCell (setCell bStacked 6 80 ' ') 7 80 '#') 5 80 ' ') 6 80 '#' :=
    descentStep_eq_of_move _ _ _ ⟨h580b, h680b⟩
  have hchk5 : cell (setCell (setCell (setCell (setCell bStacked 6 80 ' ') 7 80 '#')
      5 80 ' ') 6 80 '#') 29 80 ≠ '#' := by
    rw [cell_setCell_ne _ _ _ _ _ _ (by rintro ⟨hx2, _⟩; omega),
      cell_setCell_ne _ _ _ _ _ _ (by rintro ⟨hx2, _⟩; omega),
      cell_setCell_ne _ _ _ _ _ _ (by rintro ⟨hx2, _⟩; omega),
      cell_setCell_ne _ _ _ _ _ _ (by rintro ⟨hx2, _⟩; omega),
      cell_bStacked_off 29 80 (by rintro ⟨hx2, _⟩; omega) (by rintro ⟨hx2, _⟩; omega)]
    decide
  have hpost5 : update_inner (setCell (setCell (setCell (setCell bStacked 6 80 ' ')
      7 80 '#') 5 80 ' ') 6 80 '#') 5 (List.range' 81 78) =
      .ok (setCell (setCell (setCell (setCell bStacked 6 80 ' ') 7 80 '#') 5 80 ' ')
        6 80 '#') :=
    update_inner_nop _ 5 _ (fun j hj => by
      have hjb := List.mem_range'_1.mp hj
      constructor
      · rintro ⟨hc, _⟩
        rw [cell_setCell_ne _ _ _ _ _ _ (by rintro ⟨_, hy2⟩; omega),
          cell_setCell_ne _ _ _ _ _ _ (by rintro ⟨_, hy2⟩; omega),
          cell_setCell_ne _ _ _ _ _ _ (by rintro ⟨_, hy2⟩; omega),
          cell_setCell_ne _ _ _ _ _ _ (by rintro ⟨_, hy2⟩; omega),
          cell_bStacked_off 5 j (by rintro ⟨_, hy2⟩; omega)
            (by rintro ⟨hx2, _⟩; omega)] at hc
        exact absurd hc (by decide)
      · rw [cell_setCell_ne _ _ _ _ _ _ (by rintro ⟨hx2, _⟩; omega),
          cell_setCell_ne _ _ _ _ _ _ (by rintro ⟨hx2, _⟩; omega),
          cell_setCell_ne _ _ _ _ _ _ (by rintro ⟨hx2, _⟩; omega),
          cell_setCell_ne _ _ _ _ _ _ (by rintro ⟨hx2, _⟩; omega),
          cell_bStacked_off 29 j (by rintro ⟨hx2, _⟩; omega) (by rintro ⟨hx2, _⟩; omega)]
        decide)
  have hrow5 : update_inner (setCell (setCell bStacked 6 80 ' ') 7 80 '#') 5 colIdx =
      .ok (setCell (setCell (setCell (setCell bStacked 6 80 ' ') 7 80 '#') 5 80 ' ')
        6 80 '#') := by
    rw [hsplit, update_inner_append, hpre5]
    show update_inner (setCell (setCell bStacked 6 80 ' ') 7 80 '#') 5
      (80 :: List.range' 81 78) = _
    simp only [update_inner]
    rw [hmv5, if_neg hchk5]
    exact hpost5
  -- rows 4 down to 1 on the final board are no-ops
  have hnop2 : ∀ i, i ∈ (List.range' 1 4).reverse → ∀ j, j ∈ colIdx →
      ¬(cell (setCell (setCell (setCell (setCell bStacked 6 80 ' ') 7 80 '#') 5 80 ' ')
          6 80 '#') i j = '#' ∧
        cell (setCell (setCell (setCell (setCell bStacked 6 80 ' ') 7 80 '#') 5 80 ' ')
          6 80 '#') (i + 1) j = ' ') ∧
      cell (setCell (setCell (setCell (setCell bStacked 6 80 ' ') 7 80 '#') 5 80 ' ')
        6 80 '#') 29 j ≠ '#' := by
    intro i hi j hj
    rw [List.mem_reverse, List.mem_range'_1] at hi
    constructor
    · rintro ⟨hc, _⟩
      rw [cell_setCell_ne _ _ _ _ _ _ (by rintro ⟨hx2, _⟩; omega),
        cell_setCell_ne _ _ _ _ _ _ (by rintro ⟨hx2, _⟩; omega),
        cell_setCell_ne _ _ _ _ _ _ (by rintro ⟨hx2, _⟩; omega),
        cell_setCell_ne _ _ _ _ _ _ (by rintro ⟨hx2, _⟩; omega),
        cell_bStacked_off i j (by rintro ⟨hx2, _⟩; omega)
          (by rintro ⟨hx2, _⟩; omega)] at hc
      exact absurd hc (by decide)
    · rw [cell_setCell_ne _ _ _ _ _ _ (by rintro ⟨hx2, _⟩; omega),
        cell_setCell_ne _ _ _ _ _ _ (by rintro ⟨hx2, _⟩; omega),
        cell_setCell_ne _ _ _ _ _ _ (by rintro ⟨hx2, _⟩; omega),
        cell_setCell_ne _ _ _ _ _ _ (by rintro ⟨hx2, _⟩; omega),
        cell_bStacked_off 29 j (by rintro ⟨hx2, _⟩; omega) (by rintro ⟨hx2, _⟩; omega)]
      decide
  unfold update_board
  rw [show rowIdxRev = (List.range' 7 22).reverse ++ 6 :: 5 :: (List.range' 1 4).reverse
      from by decide]
  rw [update_outer_nop bStacked _ _ (fun i hi j hj => by
    rw [List.mem_reverse, List.mem_range'_1] at hi
    exact hnop0 i (by omega) (by omega) j hj)]
  rw [update_outer_step bStacked _ 6 _ hrow6]
  rw [update_outer_step _ _ 5 _ hrow5]
  rw [← List.append_nil ((List.range' 1 4).reverse), update_outer_nop _ _ _ hnop2]
  rfl

set_option maxRecDepth 100000 in
/-- C5 counterexample: stacked enemies at (5, 80) and (6, 80): the enemy
at (5, 80) has a non-empty cell directly below, yet after one descent
tick it has moved (its cell is cleared), because the bottom-up pass
vacates (6, 80) first and then moves the upper enemy into it. -/
theorem C5_counterexample :
    cell bStacked 5 80 = '#' ∧ cell bStacked 6 80 ≠ ' ' ∧
    cell (resultBoard (update_board bStacked)) 5 80 ≠ '#' := by
  refine ⟨by decide, by decide, ?_⟩
  rw [update_board_bStacked]
  show cell (setCell (setCell (setCell (setCell bStacked 6 80 ' ') 7 80 '#') 5 80 ' ')
    6 80 '#') 5 80 ≠ '#'
  rw [cell_setCell_ne _ _ _ _ _ _ (by rintro ⟨hx2, _⟩; omega),
    cell_setCell_self _ 5 80 ' '
      (by rw [length_setCell, length_setCell]; decide)
      (by rw [rowLength_setCell, rowLength_setCell]; decide)]
  decide

/-- C5 amended: in every descent tick on a well-formed board: a
processed enemy cell with an empty cell below moves down one row,
clearing its source and setting its destination, and an unprocessable
cell is left unchanged; an enemy blocked by a non-enemy occupant never
moves; in a completed (non-losing) pass every enemy of the resulting
board came from the same cell or the cell one row higher (no enemy
moves more than one row); and the number of enemies is preserved (no
two enemies ever merge). -/
theorem C5_descent_step_properties (b : Board) (i j : Nat) (hwf : WF b)
    (hi1 : 1 ≤ i) (hi2 : i ≤ 28) (hj1 : 1 ≤ j) (hj2 : j ≤ 158) :
    (cell b i j = '#' → cell b (i + 1) j = ' ' →
      cell (descentStep b i j) i j = ' ' ∧ cell (descentStep b i j) (i + 1) j = '#') ∧
    (¬(cell b i j = '#' ∧ cell b (i + 1) j = ' ') → descentStep b i j = b) ∧
    (cell b i j = '#' → cell b (i + 1) j ≠ ' ' → cell b (i + 1) j ≠ '#' →
      cell (resultBoard (update_board b)) i j = '#') ∧
    (isLost (update_board b) = false → cell (resultBoard (update_board b)) i j = '#' →
      cell b i j = '#' ∨ (1 ≤ i ∧ cell b (i - 1) j = '#')) ∧
    enemyCount (resultBoard (update_board b)) = enemyCount b := by
  refine ⟨?_, ?_, ?_, ?_, ?_⟩
  · intro h1 h2
    rw [descentStep_eq_of_move b i j ⟨h1, h2⟩]
    constructor
    · rw [cell_setCell_ne _ _ _ _ _ _ (by rintro ⟨hx, _⟩; omega)]
      exact cell_setCell_self b i j ' ' (by rw [hwf.1]; omega)
        (by rw [hwf.2 i (by omega)]; omega)
    · exact cell_setCell_self _ (i + 1) j '#' (by rw [length_setCell, hwf.1]; omega)
        (by rw [rowLength_setCell, hwf.2 (i + 1) (by omega)]; omega)
  · exact descentStep_eq_of_stay b i j
  · intro h1 h2 h3
    exact (update_board_blocked b i j h1 h2 h3).1
  · intro hnl h
    have hok := ok_of_not_lost (update_board b) hnl
    exact update_board_origin b (resultBoard (update_board b)) hok i j h
  · exact (update_board_count b hwf).2

set_option maxRecDepth 100000 in
/-- C5 witness: the stacked-enemies descent keeps the enemy count. -/
theorem C5_descent_step_properties_witness :
    enemyCount (resultBoard (update_board bStacked)) = enemyCount bStacked :=
  (C5_descent_step_properties bStacked 5 80 (WF_mk bStacked (by decide) (by decide))
    (by decide) (by decide) (by decide) (by decide)).2.2.2.2
